import Mathlib

/-!
Verification of the financial-data ETL backend.

The development shallowly embeds the normalization engine of the repository:
the QuickBooks (tree-shaped) normalizer, the Rootfi (flat-array) normalizer,
the category merger, the persistence record builder and the orchestrator's
error handling.  JavaScript numbers that survive the code's own validity
checks are modeled as rationals (`ℚ`); `NaN`/missing values are modeled with
`Option`.  Dynamic-keyed JS objects are modeled as association lists with
JS-object update semantics (assignment replaces the binding for a key).
-/

/-! ## JavaScript string and number helpers -/

/-- ASCII model of `String.prototype.toLowerCase` applied to one character. -/
def jsToLower (c : Char) : Char :=
  if 65 ≤ c.toNat ∧ c.toNat ≤ 90 then Char.ofNat (c.toNat + 32) else c

/-- Model of one character of `\s` (JS whitespace), restricted to ASCII. -/
def isJsWhitespace (c : Char) : Bool :=
  c == ' ' || c == '\t' || c == '\n' || c == '\r' || c == '\x0b' || c == '\x0c'

/-- Lower-case a whole string (ASCII model of `toLowerCase`). -/
def toLowerStr (s : String) : String := String.mk (s.data.map jsToLower)

/-- Model of `String.prototype.trim` (strip leading/trailing whitespace). -/
def trimStr (s : String) : String :=
  String.mk (((s.data.dropWhile isJsWhitespace).reverse.dropWhile isJsWhitespace).reverse)

/-- `startsWithChars s pat` models `s.startsWith(pat)` on character lists. -/
def startsWithChars : List Char → List Char → Bool
  | _, [] => true
  | [], _ :: _ => false
  | c :: cs, d :: ds => c == d && startsWithChars cs ds

/-- Model of `s.startsWith(pat)` for strings. -/
def startsWithStr (s pat : String) : Bool := startsWithChars s.data pat.data

/-- Model of the JS idiom `s || d` on strings: the empty string is falsy. -/
def jsOr (s d : String) : String := if s = "" then d else s

/-- The numeric value of a decimal digit, `none` for any other character. -/
def digit? (c : Char) : Option ℕ :=
  if c.isDigit then some (c.toNat - 48) else none

/-- Split a character list into its maximal leading digit run and the rest. -/
def takeDigits : List Char → (List ℕ × List Char)
  | [] => ([], [])
  | c :: rest =>
    match digit? c with
    | some d => let (ds, r) := takeDigits rest; (d :: ds, r)
    | none => ([], c :: rest)

/-- The natural number denoted by a digit run (most significant first). -/
def digitsToNat (ds : List ℕ) : ℕ := ds.foldl (fun a d => a * 10 + d) 0

/-- Ten to a natural power, as an executable rational. -/
def pow10 : ℕ → ℚ
  | 0 => 1
  | n + 1 => 10 * pow10 n

/-- Scale a rational by a (possibly negative) power of ten. -/
def applyExp (q : ℚ) (e : ℤ) : ℚ :=
  match e with
  | Int.ofNat n => q * pow10 n
  | Int.negSucc n => q / pow10 (n + 1)

/-- Model of the optional exponent suffix accepted by JS `parseFloat`
(`e`/`E`, optional sign, digits); a malformed suffix contributes exponent 0. -/
def parseExp : List Char → ℤ
  | [] => 0
  | c :: rest =>
    if c == 'e' || c == 'E' then
      match rest with
      | '+' :: r => let (ds, _) := takeDigits r
                    if ds.isEmpty then 0 else (digitsToNat ds : ℤ)
      | '-' :: r => let (ds, _) := takeDigits r
                    if ds.isEmpty then 0 else -(digitsToNat ds : ℤ)
      | r => let (ds, _) := takeDigits r
             if ds.isEmpty then 0 else (digitsToNat ds : ℤ)
    else 0

/-- The unsigned decimal prefix accepted by `parseFloat`:
digits, an optional fraction, an optional exponent.  `none` when no digits
are found (which `parseFloat` reports as `NaN`). -/
def parseFloatCore (cs : List Char) : Option ℚ :=
  let (ids, r1) := takeDigits cs
  match r1 with
  | '.' :: r2 =>
    let (fds, r3) := takeDigits r2
    if ids.isEmpty && fds.isEmpty then none
    else some (applyExp ((digitsToNat ids : ℚ) +
      (digitsToNat fds : ℚ) / pow10 fds.length) (parseExp r3))
  | _ =>
    if ids.isEmpty then none
    else some (applyExp (digitsToNat ids : ℚ) (parseExp r1))

/-- Model of JS `parseFloat` on decimal notation: leading whitespace is
skipped, an optional sign is honored, trailing garbage is ignored, and a
string with no parsable numeric prefix yields `none` (JS `NaN`).
`Infinity` literals are outside the model (no input of this system uses
them). -/
def parseFloat (s : String) : Option ℚ :=
  match s.data.dropWhile isJsWhitespace with
  | '+' :: r => parseFloatCore r
  | '-' :: r => (parseFloatCore r).map Neg.neg
  | r => parseFloatCore r

/-- Model of `isValidNumber` from `validation.utils`
(`typeof value === "number" && !isNaN(value) && isFinite(value)`): a JS
number that is possibly-`NaN` is an `Option ℚ`, and validity is having an
actual (finite) numeric value. -/
def isValidNumber (v : Option ℚ) : Bool := v.isSome

/-! ## Association lists with JS-object semantics -/

/-- JS object property write: replace the binding when the key is present,
append it otherwise. -/
def upsert {α : Type} : List (String × α) → String → α → List (String × α)
  | [], k, v => [(k, v)]
  | (k', v') :: rest, k, v =>
    if k' = k then (k, v) :: rest else (k', v') :: upsert rest k v

/-- JS object property read: the value bound to a key, `none` when absent
(JS `undefined`). -/
def alookup {α : Type} : List (String × α) → String → Option α
  | [], _ => none
  | (k', v) :: rest, k => if k' = k then some v else alookup rest k

theorem alookup_upsert {α : Type} (l : List (String × α)) (k j : String) (v : α) :
    alookup (upsert l k v) j = if j = k then some v else alookup l j := by
  induction l with
  | nil =>
    by_cases h : j = k
    · simp [upsert, alookup, h]
    · simp [upsert, alookup, h, Ne.symm h]
  | cons hd tl ih =>
    obtain ⟨k', v'⟩ := hd
    by_cases h1 : k' = k
    · by_cases h2 : j = k
      · simp [upsert, alookup, h1, h2]
      · simp [upsert, alookup, h1, h2, Ne.symm h2]
    · by_cases h2 : k' = j
      · have h3 : ¬j = k := fun hh => h1 (h2.trans hh)
        simp [upsert, alookup, h1, h2, h3]
      · simp [upsert, alookup, h1, h2, ih]

theorem mem_upsert {α : Type} {l : List (String × α)} {k : String} {v : α}
    {kv : String × α} (h : kv ∈ upsert l k v) : kv = (k, v) ∨ kv ∈ l := by
  induction l with
  | nil => simpa [upsert] using h
  | cons hd tl ih =>
    obtain ⟨k', v'⟩ := hd
    by_cases h1 : k' = k
    · simp [upsert, h1] at h
      rcases h with h | h
      · exact Or.inl (by simp [h])
      · exact Or.inr (by simp [h])
    · simp [upsert, h1] at h
      rcases h with h | h
      · exact Or.inr (by simp [h])
      · rcases ih h with h2 | h2
        · exact Or.inl h2
        · exact Or.inr (by simp [h2])

theorem alookup_mem {α : Type} {l : List (String × α)} {k : String} {v : α}
    (h : alookup l k = some v) : (k, v) ∈ l := by
  induction l with
  | nil => simp [alookup] at h
  | cons hd tl ih =>
    obtain ⟨k', v'⟩ := hd
    by_cases h1 : k' = k
    · subst h1
      simp [alookup] at h
      simp [h]
    · simp [alookup, h1] at h
      exact List.mem_cons_of_mem _ (ih h)

/-! ## Canonical schema (`financial-data.interface.ts`) -/

/-- A line item as emitted by a normalizer
(`{ key, value, originalName?, accountId? }`). -/
structure LineItem where
  key : String
  value : ℚ
  originalName : Option String := none
  accountId : Option String := none
deriving DecidableEq

/-- The unified `PeriodData` record.  The nine canonical amounts (plus the
optional `taxes` amount) live in the dynamic-keyed part of the TS object; a
canonical field that was never assigned is absent from `vals`
(JS `undefined`).  `lineItems` is the canonical-key-indexed map of line-item
arrays. -/
structure PeriodData where
  company_id : ℕ
  startDate : String
  endDate : String
  vals : List (String × ℚ) := []
  lineItems : List (String × List LineItem) := []
deriving DecidableEq

/-- Read `period[key]` for a canonical amount. -/
def getVal (p : PeriodData) (k : String) : Option ℚ := alookup p.vals k

/-- Write `period[key] = q`. -/
def setVal (p : PeriodData) (k : String) (q : ℚ) : PeriodData :=
  { p with vals := upsert p.vals k q }

/-- Read `period.lineItems[key]`. -/
def getItems (p : PeriodData) (k : String) : Option (List LineItem) :=
  alookup p.lineItems k

/-- Write `period.lineItems[key] = its`. -/
def setItems (p : PeriodData) (k : String) (its : List LineItem) : PeriodData :=
  { p with lineItems := upsert p.lineItems k its }

/-- Model of `period.lineItems[key].push(li)` with on-demand initialization
of the missing array, as done by the QuickBooks line-item mapper. -/
def pushItem (p : PeriodData) (k : String) (li : LineItem) : PeriodData :=
  { p with lineItems := upsert p.lineItems k (((alookup p.lineItems k).getD []) ++ [li]) }

theorem getVal_setVal (p : PeriodData) (k j : String) (q : ℚ) :
    getVal (setVal p k q) j = if j = k then some q else getVal p j := by
  simp [getVal, setVal, alookup_upsert]

theorem getVal_setItems (p : PeriodData) (k j : String) (its : List LineItem) :
    getVal (setItems p k its) j = getVal p j := rfl

theorem getVal_pushItem (p : PeriodData) (k j : String) (li : LineItem) :
    getVal (pushItem p k li) j = getVal p j := rfl

theorem getItems_setVal (p : PeriodData) (k j : String) (q : ℚ) :
    getItems (setVal p k q) j = getItems p j := rfl

theorem getItems_setItems (p : PeriodData) (k j : String) (its : List LineItem) :
    getItems (setItems p k its) j = if j = k then some its else getItems p j := by
  simp [getItems, setItems, alookup_upsert]

/-- `FINANCIAL_CATEGORY_KEYS` from `financial-data.interface.ts`. -/
def FINANCIAL_CATEGORY_KEYS : List String :=
  ["income", "cogs", "gross_profit", "expenses", "operating_income",
   "other_income", "other_expenses", "net_other_income", "net_income"]

/-! ## QuickBooks source shapes (`financial-data.interface.ts`, `etl.interface.ts`) -/

/-- One `{ Name, Value }` entry of a column's `MetaData`. -/
structure MetaEntry where
  Name : String
  Value : String
deriving DecidableEq

/-- One column descriptor (`ColTitle`, `ColType`, `MetaData`); `MetaData`
may be absent (`undefined`), hence the `Option`. -/
structure QBColumn where
  ColTitle : String := ""
  ColType : String
  MetaData : Option (List MetaEntry) := none
deriving DecidableEq

/-- One `{ value, id? }` cell of a row's `ColData`. -/
structure QBColCell where
  value : String
  id : Option String := none
deriving DecidableEq

/-- An innermost (depth-3) row of the QuickBooks report tree: per the
declared interface it carries only `type`, `group` and `ColData`.  An absent
`group` is modeled as `""` (both are JS-falsy) and an absent `ColData` as
`[]` (the code guards on `ColData && ColData.length > 0`). -/
structure QBRow2 where
  rowType : String := ""
  group : String := ""
  ColData : List QBColCell := []
deriving DecidableEq

/-- A depth-2 row: may carry nested rows (`Rows.Row`, modeled as `children`,
`[]` when absent) and a `Summary` block (its `ColData` cells). -/
structure QBRow1 where
  rowType : String := ""
  group : String := ""
  ColData : List QBColCell := []
  children : List QBRow2 := []
  Summary : Option (List QBColCell) := none
deriving DecidableEq

/-- A top-level row of the report tree. -/
structure QBRow0 where
  rowType : String := ""
  group : String := ""
  ColData : List QBColCell := []
  children : List QBRow1 := []
  Summary : Option (List QBColCell) := none
deriving DecidableEq

/-- The QuickBooks document: `data.Columns.Column` and `data.Rows.Row`
(the wrapper objects are flattened into the two lists; the unused `Header`
block is omitted from the model). -/
structure QuickBooksData where
  columns : List QBColumn
  rows : List QBRow0
deriving DecidableEq

/-- A `{ startDate, endDate }` pair from `etl.interface.ts`. -/
structure ReportDate where
  startDate : String
  endDate : String
deriving DecidableEq

/-- Row classification from `etl.interface.ts`. -/
inductive LineType where
  | summary
  | total
  | normal
deriving DecidableEq

/-- `LineItemData` from `etl.interface.ts` (the TS field `type` is spelled
`ltype` here). -/
structure LineItemData where
  lineItem : String
  group : String
  valuesArray : List String
  ltype : LineType
deriving DecidableEq

/-- `QUICKBOOKS_UNIFIED_KEYS` from `migrate.ts` / `etl.interface.ts`, as an
ordered entry list (JS object literals preserve insertion order). -/
def QUICKBOOKS_UNIFIED_KEYS : List (String × String) :=
  [("Income", "income"),
   ("COGS", "cogs"),
   ("GrossProfit", "gross_profit"),
   ("Expenses", "expenses"),
   ("NetOperatingIncome", "operating_income"),
   ("OtherIncome", "other_income"),
   ("OtherExpenses", "other_expenses"),
   ("NetOtherIncome", "net_other_income"),
   ("NetIncome", "net_income")]

namespace QuickBooksETLService

/-- `defaultCompanyId` of the service. -/
def defaultCompanyId : ℕ := 1

/-- `defaultGroup` of the service. -/
def defaultGroup : String := "Ungrouped"

/-- `getReportDates`: a column contributes a period exactly when its
`ColType` is `"Money"`, its `MetaData` is present, and the metadata contains
both a `StartDate` and an `EndDate` entry. -/
def periodOfColumn (col : QBColumn) : Option ReportDate :=
  if col.ColType = "Money" then
    match col.MetaData with
    | some meta =>
      match meta.find? (fun m => m.Name == "StartDate"),
            meta.find? (fun m => m.Name == "EndDate") with
      | some sm, some em => some { startDate := sm.Value, endDate := em.Value }
      | _, _ => none
    | none => none
  else none

/-- `getReportDates` itself: one period per qualifying column, in column
order. -/
def getReportDates (d : QuickBooksData) : List ReportDate :=
  d.columns.filterMap periodOfColumn

/-- `determineLineType`: case-insensitive label classification. -/
def determineLineType (label : String) : LineType :=
  let lower := toLowerStr (trimStr label)
  if startsWithStr lower "summary" then LineType.summary
  else if startsWithStr lower "net" then LineType.summary
  else if startsWithStr lower "total " then LineType.total
  else LineType.normal

/-- `createLineItemFromColData`: the first cell's value is the label
(`colData[0]?.value || ""`), the remaining cells are the per-period value
strings. -/
def createLineItemFromColData (colData : List QBColCell) (group : String) :
    LineItemData :=
  let lineItem := (colData.head?.map (fun c => c.value)).getD ""
  { lineItem := lineItem
    group := group
    valuesArray := (colData.drop 1).map (fun c => c.value)
    ltype := determineLineType lineItem }

/-- The per-row step of `getLineItems`'s `traverse`: a row with non-empty
`ColData` is turned into a `LineItemData` and kept only when classified
`normal`. -/
def rowEmit (colData : List QBColCell) (g : String) : List LineItemData :=
  if colData.length > 0 then
    let li := createLineItemFromColData colData g
    if li.ltype = LineType.normal then [li] else []
  else []

/-- `traverse` at depth 3: no further nesting per the declared interface. -/
def traverse2 (g : String) (r : QBRow2) : List LineItemData :=
  rowEmit r.ColData g

/-- `traverse` at depth 2: emit this row, then recurse into its children
with the *same* `parentGroup` (the code never switches to a nested row's own
group). -/
def traverse1 (g : String) (r : QBRow1) : List LineItemData :=
  rowEmit r.ColData g ++ r.children.flatMap (traverse2 g)

/-- `traverse` at depth 1, used for ungrouped top-level rows
(`traverse([row], defaultGroup)`). -/
def traverse0 (g : String) (r : QBRow0) : List LineItemData :=
  rowEmit r.ColData g ++ r.children.flatMap (traverse1 g)

/-- `getLineItems`: a top-level row with a (truthy) `group` has only its
children traversed under that group; a top-level row without a group is
itself traversed under the default group. -/
def getLineItems (d : QuickBooksData) : List LineItemData :=
  d.rows.flatMap (fun r =>
    if r.group ≠ "" then r.children.flatMap (traverse1 r.group)
    else traverse0 defaultGroup r)

/-- Replace the element at an index, leaving any other position unchanged
(model of an in-place array element mutation). -/
def modifyAt {α : Type} : ℕ → (α → α) → List α → List α
  | _, _, [] => []
  | 0, f, a :: as => f a :: as
  | n + 1, f, a :: as => a :: modifyAt n f as

/-- The `summaryValues.forEach((colData, index) => ...)` loop of
`processSummaryData`: parse `colData?.value || "0"`, and when the parse is
a valid number and the index is within the period list, overwrite
`resultsByDate[index][unifiedKey]`. -/
def applySummaryVals (uk : String) : List QBColCell → ℕ → List PeriodData → List PeriodData
  | [], _, res => res
  | c :: rest, i, res =>
    let res' :=
      match parseFloat (jsOr c.value "0") with
      | some q => if i < res.length then modifyAt i (fun p => setVal p uk q) res else res
      | none => res
    applySummaryVals uk rest (i + 1) res'

/-- One row of `processSummaryData`: only a row with a `Summary` block and a
truthy `group` whose group is a *case-sensitive* key of the mapping table
contributes; the first summary cell (the label) is skipped. -/
def processSummaryRow (res : List PeriodData) (r : QBRow0) : List PeriodData :=
  match r.Summary with
  | some cells =>
    if r.group ≠ "" then
      match alookup QUICKBOOKS_UNIFIED_KEYS r.group with
      | some uk => applySummaryVals uk (cells.drop 1) 0 res
      | none => res
    else res
  | none => res

/-- `processSummaryData`, called by `transformData` on the *top-level* rows
only. -/
def processSummaryData (rows : List QBRow0) (res : List PeriodData) : List PeriodData :=
  rows.foldl processSummaryRow res

/-- The key resolution of `processLineItems`: exact (case-sensitive) lookup
first, then the first table entry whose key matches case-insensitively. -/
def resolveKey (tbl : List (String × String)) (g : String) : Option String :=
  match alookup tbl g with
  | some v => some v
  | none => (tbl.find? (fun kv => toLowerStr kv.1 == toLowerStr g)).map Prod.snd

/-- `forEach((x, index) => ...)` as an index-carrying map. -/
def mapWithIdx {α β : Type} (f : ℕ → α → β) : ℕ → List α → List β
  | _, [] => []
  | i, a :: as => f i a :: mapWithIdx f (i + 1) as

/-- One iteration of `processLineItems`: a `normal` item whose group
resolves to a unified key appends one parsed line item per period (skipping
periods whose value string does not parse to a valid number;
`valuesArray[index] || "0"` turns a missing or empty cell into `"0"`). -/
def processLineItem (res : List PeriodData) (item : LineItemData) : List PeriodData :=
  if item.ltype = LineType.normal then
    match resolveKey QUICKBOOKS_UNIFIED_KEYS item.group with
    | some uk =>
      mapWithIdx (fun i p =>
        match parseFloat (jsOr ((item.valuesArray.get? i).getD "") "0") with
        | some q => pushItem p uk { key := item.lineItem, value := q }
        | none => p) 0 res
    | none => res
  else res

/-- `processLineItems` (its `try`/`catch` only logs; no step can throw in
the model). -/
def processLineItems (items : List LineItemData) (res : List PeriodData) : List PeriodData :=
  items.foldl processLineItem res

/-- `transformData`: one fresh record per extracted report date, then
summary overwrites, then line-item mapping. -/
def transformData (d : QuickBooksData) : List PeriodData :=
  let reportDates := getReportDates d
  let lineItems := getLineItems d
  let resultsByDate : List PeriodData := reportDates.map (fun date =>
    { company_id := defaultCompanyId
      startDate := date.startDate
      endDate := date.endDate })
  processLineItems lineItems (processSummaryData d.rows resultsByDate)

end QuickBooksETLService

/-! ## Text utilities (`text.utils.ts`) -/

/-- `\s+` replacement: collapse each maximal whitespace run into a single
`'_'`.  The boolean tracks whether the previous character was part of a
run. -/
def collapseWsAux : Bool → List Char → List Char
  | _, [] => []
  | inRun, c :: rest =>
    if isJsWhitespace c then
      if inRun then collapseWsAux true rest
      else '_' :: collapseWsAux true rest
    else c :: collapseWsAux false rest

/-- `&` → `and` (`/&/g` replacement). -/
def ampToAnd (cs : List Char) : List Char :=
  cs.flatMap (fun c => if c = '&' then ['a', 'n', 'd'] else [c])

/-- Whether a character survives the final `[^a-z0-9_]` deletion. -/
def allowedChar (c : Char) : Bool :=
  ('a' ≤ c && c ≤ 'z') || ('0' ≤ c && c ≤ '9') || c == '_'

/-- `cleanLineItemTitles`: lowercase, then `&`→`and`, then drop parentheses,
then collapse whitespace runs to `_`, then delete everything outside
`[a-z0-9_]`. -/
def cleanLineItemTitles (title : String) : String :=
  String.mk
    ((collapseWsAux false
      (((title.data.map jsToLower).flatMap
          (fun c => if c = '&' then ['a', 'n', 'd'] else [c])).filter
        (fun c => c != '(' && c != ')'))).filter allowedChar)

theorem cleanLineItemTitles_allowed (s : String) :
    (cleanLineItemTitles s).data.all allowedChar = true := by
  simp [cleanLineItemTitles, List.all_eq_true, List.mem_filter]

/-! ## Rootfi source shapes (`financial-data.interface.ts`) -/

/-- A Rootfi source line item (`{ name, value, account_id }`). -/
structure RootfiLineItem where
  name : String
  value : ℚ
  account_id : String := ""
deriving DecidableEq

/-- A Rootfi source category.  `value` and `line_items` are accessed
defensively by the code (`curr.value || 0`, `value[0]?.line_items`), so both
are modeled as optional. -/
structure RootfiCategory where
  name : String := ""
  value : Option ℚ := none
  line_items : Option (List RootfiLineItem) := none
deriving DecidableEq

/-- A dynamic JSON value as inspected by `RootfiETLService.transformData`:
an array of categories, a finite number, or anything else (`NaN`, `null`,
missing, ...), which fails both `Array.isArray` and `isValidNumber`. -/
inductive RValue where
  | arr (cats : List RootfiCategory)
  | num (x : ℚ)
  | nullv
deriving DecidableEq

/-- `isValidNumber` on a dynamic value: only an actual finite number
passes. -/
def RValue.isNumber : RValue → Bool
  | .num _ => true
  | _ => false

/-- A Rootfi source period.  The ten fields consulted through
`ROOTFI_UNIFIED_KEYS` (and `rootfi_company_id`, which is validated) are
dynamic values; the identification/timestamp fields not used by the
normalizer are omitted from the model. -/
structure RootfiPeriod where
  rootfi_company_id : RValue := RValue.nullv
  period_start : String
  period_end : String
  revenue : RValue := RValue.nullv
  cost_of_goods_sold : RValue := RValue.nullv
  gross_profit : RValue := RValue.nullv
  operating_expenses : RValue := RValue.nullv
  operating_profit : RValue := RValue.nullv
  non_operating_revenue : RValue := RValue.nullv
  non_operating_expenses : RValue := RValue.nullv
  earnings_before_taxes : RValue := RValue.nullv
  taxes : RValue := RValue.nullv
  net_profit : RValue := RValue.nullv
deriving DecidableEq

/-- `period[originalKey]` for the keys of `ROOTFI_UNIFIED_KEYS`. -/
def getField (p : RootfiPeriod) : String → RValue
  | "revenue" => p.revenue
  | "cost_of_goods_sold" => p.cost_of_goods_sold
  | "gross_profit" => p.gross_profit
  | "operating_expenses" => p.operating_expenses
  | "operating_profit" => p.operating_profit
  | "non_operating_revenue" => p.non_operating_revenue
  | "non_operating_expenses" => p.non_operating_expenses
  | "earnings_before_taxes" => p.earnings_before_taxes
  | "taxes" => p.taxes
  | "net_profit" => p.net_profit
  | _ => RValue.nullv

/-- The Rootfi document (`{ data: RootfiPeriod[] }`). -/
structure RootfiData where
  data : List RootfiPeriod
deriving DecidableEq

/-- `ROOTFI_UNIFIED_KEYS` from `migrate.ts` / `etl.interface.ts`, as an
ordered entry list. -/
def ROOTFI_UNIFIED_KEYS : List (String × String) :=
  [("revenue", "income"),
   ("cost_of_goods_sold", "cogs"),
   ("gross_profit", "gross_profit"),
   ("operating_expenses", "expenses"),
   ("operating_profit", "operating_income"),
   ("non_operating_revenue", "other_income"),
   ("non_operating_expenses", "other_expenses"),
   ("earnings_before_taxes", "net_other_income"),
   ("taxes", "taxes"),
   ("net_profit", "net_income")]

namespace RootfiETLService

/-- `defaultCompanyId` of the service. -/
def defaultCompanyId : ℕ := 2

/-- The line item built from a source line item in the array branch of
`transformData`: `key` is the cleaned name, `originalName` the untouched
source name (no `accountId` is copied). -/
def mkRootfiItem (it : RootfiLineItem) : LineItem :=
  { key := cleanLineItemTitles it.name
    value := it.value
    originalName := some it.name }

/-- One iteration of the `for (const [originalKey, unifiedKey] of ...)` loop
of `transformData`: an array field contributes the sum of its elements'
`value`s (`curr.value || 0`) and the line items of only the first element
(`value[0]?.line_items?.map(...) || []`); a valid number is copied; anything
else defaults the canonical value to `0`. -/
def processEntry (p : RootfiPeriod) (pd : PeriodData) (e : String × String) : PeriodData :=
  match getField p e.1 with
  | RValue.arr cats =>
    let pd := setVal pd e.2 ((cats.map (fun c => c.value.getD 0)).sum)
    setItems pd e.2 ((((cats.head?).bind RootfiCategory.line_items).getD []).map mkRootfiItem)
  | RValue.num x => setVal pd e.2 x
  | RValue.nullv => setVal pd e.2 0

/-- The transformation of a single Rootfi period. -/
def transformPeriod (p : RootfiPeriod) : PeriodData :=
  ROOTFI_UNIFIED_KEYS.foldl (processEntry p)
    { company_id := defaultCompanyId
      startDate := p.period_start
      endDate := p.period_end }

/-- `transformData`: one unified record per source period, dates copied
verbatim. -/
def transformData (d : RootfiData) : List PeriodData :=
  d.data.map transformPeriod

/-- `getReportDates`. -/
def getReportDates (d : RootfiData) : List ReportDate :=
  d.data.map (fun p => { startDate := p.period_start, endDate := p.period_end })

/-- `validateData`: every period must have truthy date bounds and a
numerically valid `rootfi_company_id`.  (The `!rootfiData ||
!Array.isArray(rootfiData.data)` guard is vacuous in the typed model.) -/
def validateData (d : RootfiData) : Bool :=
  d.data.all (fun p =>
    p.period_start != "" && p.period_end != "" && p.rootfi_company_id.isNumber)

end RootfiETLService

/-! ## Database entities and services (`database.service.ts`, entities) -/

/-- A stored company row. -/
structure Company where
  id : ℕ
  name : String := ""
deriving DecidableEq

/-- A stored report-period row as loaded with its company relation. -/
structure ReportPeriodRef where
  id : ℕ
  startDate : String
  endDate : String
  company : Option Company := none
deriving DecidableEq

/-- A stored financial line item as loaded from the database. -/
structure DBLineItem where
  id : ℕ := 0
  originalName : String := ""
  name : String := ""
  value : ℚ := 0
  accountId : Option String := none
  itemType : Option String := none
deriving DecidableEq

/-- A stored financial category row as loaded with its `lineItems`,
`reportPeriod` and `reportPeriod.company` relations. -/
structure RawCategory where
  name : String
  value : ℚ
  categoryType : String := ""
  lineItems : List DBLineItem := []
  reportPeriod : Option ReportPeriodRef := none
deriving DecidableEq

/-- The transient merged-category shape built by
`getCategoriesByDateRange`. -/
structure MergedCategory where
  id : String
  name : String
  value : ℚ
  categoryType : String
  lineItems : List DBLineItem
  reportPeriods : List ReportPeriodRef
  companies : List Company
deriving DecidableEq

namespace DatabaseService

/-- The fresh accumulator entry created when a category name is first
seen. -/
def emptyMerged (c : RawCategory) : MergedCategory :=
  { id := "merged_" ++ c.name
    name := c.name
    value := 0
    categoryType := c.categoryType
    lineItems := []
    reportPeriods := []
    companies := [] }

/-- Folding one raw category into its merged entry: sum the value,
concatenate the line items, record the contributing period, and add the
company when its id is not already present. -/
def updateMerged (m : MergedCategory) (c : RawCategory) : MergedCategory :=
  let m := { m with value := m.value + c.value, lineItems := m.lineItems ++ c.lineItems }
  match c.reportPeriod with
  | some rp =>
    { m with
      reportPeriods := m.reportPeriods ++ [rp]
      companies :=
        match rp.company with
        | some comp =>
          if m.companies.any (fun x => x.id == comp.id) then m.companies
          else m.companies ++ [comp]
        | none => m.companies }
  | none => m

/-- One step of the grouping loop of `getCategoriesByDateRange` (a JS `Map`
keyed by category name, modeled as an insertion-ordered list of merged
entries with pairwise-distinct names). -/
def mergeStep (acc : List MergedCategory) (c : RawCategory) : List MergedCategory :=
  if acc.any (fun m => m.name == c.name) then
    acc.map (fun m => if m.name = c.name then updateMerged m c else m)
  else acc ++ [updateMerged (emptyMerged c) c]

/-- Whether a stored category's owning period matches the queried bounds
exactly (the `where` clause of the find). -/
def matchesBounds (startDate endDate : String) (c : RawCategory) : Bool :=
  match c.reportPeriod with
  | some rp => rp.startDate == startDate && rp.endDate == endDate
  | none => false

/-- `getCategoriesByDateRange` over an explicit store: filter the stored
categories to the exact date bounds, group by name, and sort the merged
entries by name.  (`localeCompare` is modeled as ordinal string order.) -/
def getCategoriesByDateRange (startDate endDate : String)
    (stored : List RawCategory) : List MergedCategory :=
  ((stored.filter (matchesBounds startDate endDate)).foldl mergeStep []).mergeSort
    (fun a b => a.name ≤ b.name)

/-- `getCategoryType` from `database.service.ts`. -/
def getCategoryType (categoryKey : String) : String :=
  if ["income", "other_income"].contains categoryKey then "income"
  else if ["cogs", "expenses", "other_expenses"].contains categoryKey then "expense"
  else if ["gross_profit", "operating_income", "net_other_income",
           "net_income"].contains categoryKey then "profit"
  else "other"

/-- `getItemType` from `database.service.ts`. -/
def getItemType (categoryKey : String) : String :=
  if ["income", "other_income"].contains categoryKey then "revenue"
  else if ["cogs", "expenses", "other_expenses"].contains categoryKey then "expense"
  else "other"

/-- A `FinancialLineItem` as constructed (not yet id-assigned) by
`saveCompanyData`. -/
structure SavedLineItem where
  name : String
  value : ℚ
  accountId : Option String
  itemType : String
deriving DecidableEq

/-- A `FinancialCategory` as constructed by `saveCompanyData`. -/
structure SavedCategory where
  name : String
  value : ℚ
  categoryType : String
  lineItems : List SavedLineItem
deriving DecidableEq

/-- A `ReportPeriod` as constructed by `saveCompanyData`. -/
structure SavedReportPeriod where
  startDate : String
  endDate : String
  periodType : String
  categories : List SavedCategory
deriving DecidableEq

/-- The category rows `saveCompanyData` creates for one period: exactly one
per entry of `FINANCIAL_CATEGORY_KEYS`, in table order, with
`(period[categoryKey] as number) || 0` as the value and the period's
line-item array for that key (empty when absent). -/
def buildCategoriesForPeriod (period : PeriodData) : List SavedCategory :=
  FINANCIAL_CATEGORY_KEYS.map (fun categoryKey =>
    { name := categoryKey
      value := (getVal period categoryKey).getD 0
      categoryType := getCategoryType categoryKey
      lineItems := ((getItems period categoryKey).getD []).map (fun li =>
        { name := li.key
          value := li.value
          accountId := li.accountId
          itemType := getItemType categoryKey }) })

/-- The pure entity-construction core of `saveCompanyData`: one report
period per input record, each with its nine categories.  (The surrounding
transaction and id assignment are persistence-collaborator behavior.) -/
def saveCompanyData (periodData : List PeriodData) : List SavedReportPeriod :=
  periodData.map (fun period =>
    { startDate := period.startDate
      endDate := period.endDate
      periodType := "monthly"
      categories := buildCategoriesForPeriod period })

end DatabaseService

/-! ## Merge-query route (`data.routes.ts`) -/

/-- The strict `^\d{4}-\d{2}-\d{2}$` test of the route. -/
def isStrictDateFormat (s : String) : Bool :=
  match s.data with
  | [a, b, c, d, '-', e, f, '-', g, h] =>
    [a, b, c, d, e, f, g, h].all Char.isDigit
  | _ => false

/-- The possible outcomes of `GET /api/data/categories/by-date-range`. -/
inductive DateRangeResponse where
  | missingParams
  | invalidFormat
  | merged (cats : List MergedCategory)
deriving DecidableEq

/-- The route handler over an explicit store: missing/empty parameters are
rejected first, then the strict format check, and only then is the merger
invoked. -/
def handleCategoriesByDateRange (startDate? endDate? : Option String)
    (stored : List RawCategory) : DateRangeResponse :=
  let s := startDate?.getD ""
  let e := endDate?.getD ""
  if s = "" || e = "" then DateRangeResponse.missingParams
  else if !(isStrictDateFormat s) || !(isStrictDateFormat e) then
    DateRangeResponse.invalidFormat
  else DateRangeResponse.merged (DatabaseService.getCategoriesByDateRange s e stored)

/-! ## Orchestrator (`unified-etl.service.ts`) -/

/-- The statistics record returned by the persistence collaborator. -/
structure DatabaseStatistics where
  companies : ℕ
  reportPeriods : ℕ
  categories : ℕ
  lineItems : ℕ
deriving DecidableEq

/-- `ETLResult`. -/
structure ETLResult where
  success : Bool
  message : String
  results : Option DatabaseStatistics := none
  errors : Option (List String) := none
deriving DecidableEq

namespace UnifiedETLService

/-- `processQuickBooksData` with the two collaborator stages made explicit:
the outcome of the fetch (`loadQuickBooksData` wraps a fetch error) and the
outcome of the transactional save on the transformed records.  Every
failure is caught and converted into a `success = false` result with a
one-element error list; nothing is rethrown. -/
def processQuickBooksData (fetched : Except String QuickBooksData)
    (save : List PeriodData → Except String DatabaseStatistics) : ETLResult :=
  match fetched with
  | Except.error e =>
    let msg := "Failed to load QuickBooks data: " ++ e
    { success := false
      message := "QuickBooks data processing failed: Error: " ++ msg
      errors := some [msg] }
  | Except.ok d =>
    match save (QuickBooksETLService.transformData d) with
    | Except.error e =>
      { success := false
        message := "QuickBooks data processing failed: Error: " ++ e
        errors := some [e] }
    | Except.ok stats =>
      { success := true
        message := "QuickBooks data processed successfully"
        results := some stats }

/-- `processRootfiData`: like the QuickBooks pipeline, with the additional
structural validation stage; an invalid document raises
`"Invalid Rootfi data structure"`, which the surrounding `catch` converts
into a failure result. -/
def processRootfiData (fetched : Except String RootfiData)
    (save : List PeriodData → Except String DatabaseStatistics) : ETLResult :=
  match fetched with
  | Except.error e =>
    let msg := "Failed to load Rootfi data: " ++ e
    { success := false
      message := "Rootfi data processing failed: Error: " ++ msg
      errors := some [msg] }
  | Except.ok d =>
    if !RootfiETLService.validateData d then
      { success := false
        message := "Rootfi data processing failed: Error: Invalid Rootfi data structure"
        errors := some ["Invalid Rootfi data structure"] }
    else
      match save (RootfiETLService.transformData d) with
      | Except.error e =>
        { success := false
          message := "Rootfi data processing failed: Error: " ++ e
          errors := some [e] }
      | Except.ok stats =>
        { success := true
          message := "Rootfi data processed successfully"
          results := some stats }

end UnifiedETLService

/-! ## General lemmas about the state helpers -/

/-- A write result combined with the previous value: a successful write
(`some`) replaces, a skipped write keeps the old value. -/
def writeOr (w old : Option ℚ) : Option ℚ :=
  match w with
  | some q => some q
  | none => old

theorem writeOr_none_right (w : Option ℚ) : writeOr w none = w := by
  cases w <;> rfl

theorem writeOr_assoc (a b c : Option ℚ) :
    writeOr a (writeOr b c) = writeOr (writeOr a b) c := by
  cases a <;> cases b <;> rfl

theorem length_modifyAt {α : Type} (f : α → α) :
    ∀ (n : ℕ) (l : List α), (QuickBooksETLService.modifyAt n f l).length = l.length := by
  intro n l
  induction l generalizing n with
  | nil => cases n <;> rfl
  | cons a as ih =>
    cases n with
    | zero => simp [QuickBooksETLService.modifyAt]
    | succ m => simp [QuickBooksETLService.modifyAt, ih]

theorem get?_modifyAt {α : Type} (f : α → α) :
    ∀ (n : ℕ) (l : List α) (i : ℕ),
      (QuickBooksETLService.modifyAt n f l).get? i =
        if i = n then (l.get? i).map f else l.get? i := by
  intro n l
  induction l generalizing n with
  | nil => intro i; cases n <;> simp [QuickBooksETLService.modifyAt]
  | cons a as ih =>
    intro i
    cases n with
    | zero =>
      cases i with
      | zero => simp [QuickBooksETLService.modifyAt]
      | succ j => simp [QuickBooksETLService.modifyAt]
    | succ m =>
      cases i with
      | zero => simp [QuickBooksETLService.modifyAt]
      | succ j => simpa [QuickBooksETLService.modifyAt] using ih m j

theorem map_modifyAt {α β : Type} (g : α → β) (f : α → α)
    (h : ∀ a, g (f a) = g a) :
    ∀ (n : ℕ) (l : List α), (QuickBooksETLService.modifyAt n f l).map g = l.map g := by
  intro n l
  induction l generalizing n with
  | nil => cases n <;> rfl
  | cons a as ih =>
    cases n with
    | zero => simp [QuickBooksETLService.modifyAt, h]
    | succ m => simp [QuickBooksETLService.modifyAt, ih]

theorem length_mapWithIdx {α β : Type} (f : ℕ → α → β) :
    ∀ (s : ℕ) (l : List α), (QuickBooksETLService.mapWithIdx f s l).length = l.length := by
  intro s l
  induction l generalizing s with
  | nil => rfl
  | cons a as ih => simp [QuickBooksETLService.mapWithIdx, ih]

theorem get?_mapWithIdx {α β : Type} (f : ℕ → α → β) :
    ∀ (s : ℕ) (l : List α) (i : ℕ),
      (QuickBooksETLService.mapWithIdx f s l).get? i = (l.get? i).map (f (s + i)) := by
  intro s l
  induction l generalizing s with
  | nil => intro i; simp [QuickBooksETLService.mapWithIdx]
  | cons a as ih =>
    intro i
    cases i with
    | zero => simp [QuickBooksETLService.mapWithIdx]
    | succ j =>
      have := ih (s + 1) j
      simpa [QuickBooksETLService.mapWithIdx, Nat.add_comm, Nat.add_assoc,
        Nat.add_left_comm] using this

/-- The canonical amount at position `i` of a record list (`undefined` when
the index is out of range or the field was never assigned). -/
def valAtIdx (res : List PeriodData) (i : ℕ) (k : String) : Option ℚ :=
  match res.get? i with
  | some p => getVal p k
  | none => none

namespace QuickBooksETLService

theorem length_applySummaryVals (uk : String) :
    ∀ (cells : List QBColCell) (j : ℕ) (res : List PeriodData),
      (applySummaryVals uk cells j res).length = res.length := by
  intro cells
  induction cells with
  | nil => intro j res; rfl
  | cons c rest ih =>
    intro j res
    simp only [applySummaryVals]
    cases parseFloat (jsOr c.value "0") with
    | none => exact ih (j + 1) res
    | some q =>
      by_cases hj : j < res.length
      · simp only [hj, if_pos]
        rw [ih, length_modifyAt]
      · simp only [hj, if_neg, ite_false]
        exact ih (j + 1) res

theorem length_processSummaryRow (res : List PeriodData) (r : QBRow0) :
    (processSummaryRow res r).length = res.length := by
  unfold processSummaryRow
  cases hs : r.Summary with
  | none => rfl
  | some cells =>
    by_cases hg : r.group ≠ ""
    · cases hk : alookup QUICKBOOKS_UNIFIED_KEYS r.group with
      | none => simp [hg, hk]
      | some uk => simp [hg, hk, length_applySummaryVals]
    · simp [hg]

theorem length_processSummaryData (rows : List QBRow0) :
    ∀ (res : List PeriodData), (processSummaryData rows res).length = res.length := by
  induction rows with
  | nil => intro res; rfl
  | cons r rs ih =>
    intro res
    have h1 := length_processSummaryRow res r
    have h2 := ih (processSummaryRow res r)
    simpa [processSummaryData, List.foldl_cons] using h2.trans h1

theorem length_processLineItem (res : List PeriodData) (item : LineItemData) :
    (processLineItem res item).length = res.length := by
  unfold processLineItem
  by_cases ht : item.ltype = LineType.normal
  · simp only [ht, if_pos]
    cases resolveKey QUICKBOOKS_UNIFIED_KEYS item.group with
    | none => rfl
    | some uk => exact length_mapWithIdx _ 0 res
  · simp [ht]

theorem length_processLineItems (items : List LineItemData) :
    ∀ (res : List PeriodData), (processLineItems items res).length = res.length := by
  induction items with
  | nil => intro res; rfl
  | cons it its ih =>
    intro res
    have h1 := length_processLineItem res it
    have h2 := ih (processLineItem res it)
    simpa [processLineItems, List.foldl_cons] using h2.trans h1

end QuickBooksETLService

/-! ## Value tracking through the QuickBooks folds -/

namespace QuickBooksETLService

theorem valAtIdx_processLineItem (res : List PeriodData) (item : LineItemData)
    (i : ℕ) (k : String) :
    valAtIdx (processLineItem res item) i k = valAtIdx res i k := by
  unfold processLineItem
  by_cases ht : item.ltype = LineType.normal
  · simp only [ht, if_pos]
    cases hk : resolveKey QUICKBOOKS_UNIFIED_KEYS item.group with
    | none => rfl
    | some uk =>
      unfold valAtIdx
      rw [get?_mapWithIdx]
      cases hp : res.get? i with
      | none => rfl
      | some p =>
        simp only [Option.map_some]
        cases parseFloat (jsOr ((item.valuesArray.get? (0 + i)).getD "") "0") with
        | none => rfl
        | some q => exact getVal_pushItem p uk k _
  · simp [ht]

theorem valAtIdx_processLineItems (items : List LineItemData) :
    ∀ (res : List PeriodData) (i : ℕ) (k : String),
      valAtIdx (processLineItems items res) i k = valAtIdx res i k := by
  induction items with
  | nil => intro res i k; rfl
  | cons it its ih =>
    intro res i k
    have h2 := ih (processLineItem res it) i k
    simpa [processLineItems, List.foldl_cons, valAtIdx_processLineItem]
      using h2.trans (valAtIdx_processLineItem res it i k)

/-- Where (if anywhere) one summary cell list writes period `i` of field
`k`, when the walk started at period index `j`. -/
def cellWrite (uk : String) (cells : List QBColCell) (j i : ℕ) (k : String) : Option ℚ :=
  if k = uk ∧ j ≤ i then
    (cells.get? (i - j)).bind (fun c => parseFloat (jsOr c.value "0"))
  else none


theorem getElem?_modifyAt {α : Type} (f : α → α) (n : ℕ) (l : List α) (i : ℕ) :
    (modifyAt n f l)[i]? = if i = n then l[i]?.map f else l[i]? := by
  have h := get?_modifyAt f n l i
  simpa [List.get?_eq_getElem?] using h

theorem valAtIdx_applySummaryVals (uk : String) :
    ∀ (cells : List QBColCell) (j : ℕ) (res : List PeriodData) (i : ℕ) (k : String),
      i < res.length →
      valAtIdx (applySummaryVals uk cells j res) i k =
        writeOr (cellWrite uk cells j i k) (valAtIdx res i k) := by
  intro cells
  induction cells with
  | nil =>
    intro j res i k hi
    simp [applySummaryVals, cellWrite, writeOr]
  | cons c rest ih =>
    intro j res i k hi
    cases hw : parseFloat (jsOr c.value "0") with
    | none =>
      have step : applySummaryVals uk (c :: rest) j res =
          applySummaryVals uk rest (j + 1) res := by
        simp [applySummaryVals, hw]
      rw [step, ih (j + 1) res i k hi]
      congr 1
      by_cases hk : k = uk
      · rcases Nat.lt_trichotomy i j with hij | hij | hij
        · have h1 : ¬(j ≤ i) := by omega
          have h2 : ¬(j + 1 ≤ i) := by omega
          simp [cellWrite, h1, h2]
        · subst hij
          have h2 : ¬(i + 1 ≤ i) := by omega
          simp [cellWrite, hk, h2, hw]
        · have h1 : j ≤ i := by omega
          have h2 : j + 1 ≤ i := by omega
          have h3 : i - j = (i - (j + 1)) + 1 := by omega
          simp [cellWrite, hk, h1, h2, h3]
      · simp [cellWrite, hk]
    | some q =>
      by_cases hj : j < res.length
      · have step : applySummaryVals uk (c :: rest) j res =
            applySummaryVals uk rest (j + 1) (modifyAt j (fun p => setVal p uk q) res) := by
          simp [applySummaryVals, hw, hj]
        have hlen : (modifyAt j (fun p => setVal p uk q) res).length = res.length :=
          length_modifyAt _ j res
        rw [step, ih (j + 1) (modifyAt j (fun p => setVal p uk q) res) i k (by omega)]
        rcases Nat.lt_trichotomy i j with hij | hij | hij
        · have hgi : (modifyAt j (fun p => setVal p uk q) res)[i]? = res[i]? := by
            rw [getElem?_modifyAt]
            simp [show i ≠ j by omega]
          have h1 : ¬(j ≤ i) := by omega
          have h2 : ¬(j + 1 ≤ i) := by omega
          simp [cellWrite, h1, h2, valAtIdx, hgi]
        · subst hij
          have h2 : ¬(i + 1 ≤ i) := by omega
          have hLcell : cellWrite uk rest (i + 1) i k = none := by
            simp [cellWrite, h2]
          rw [hLcell]
          obtain ⟨p, hp⟩ : ∃ p, res[i]? = some p := by
            cases hgp : res[i]? with
            | none => exact absurd (List.getElem?_eq_none_iff.mp hgp) (by omega)
            | some p => exact ⟨p, rfl⟩
          have hgi : (modifyAt i (fun p => setVal p uk q) res)[i]? =
              some (setVal p uk q) := by
            rw [getElem?_modifyAt]
            simp [hp]
          by_cases hk : k = uk
          · have hR : cellWrite uk (c :: rest) i i k = some q := by
              simp [cellWrite, hk, hw]
            rw [hR]
            simp [writeOr, valAtIdx, hgi, getVal_setVal, hk]
          · have hR : cellWrite uk (c :: rest) i i k = none := by
              simp [cellWrite, hk]
            rw [hR]
            simp [writeOr, valAtIdx, hgi, hp, getVal_setVal, hk]
        · have hgi : (modifyAt j (fun p => setVal p uk q) res)[i]? = res[i]? := by
            rw [getElem?_modifyAt]
            simp [show i ≠ j by omega]
          have h1 : j ≤ i := by omega
          have h2 : j + 1 ≤ i := by omega
          have h3 : i - j = (i - (j + 1)) + 1 := by omega
          by_cases hk : k = uk
          · simp [cellWrite, hk, h1, h2, h3, valAtIdx, hgi]
          · simp [cellWrite, hk, valAtIdx, hgi]
      · have step : applySummaryVals uk (c :: rest) j res =
            applySummaryVals uk rest (j + 1) res := by
          simp [applySummaryVals, hw, hj]
        rw [step, ih (j + 1) res i k hi]
        congr 1
        have h1 : ¬(j ≤ i) := by omega
        have h2 : ¬(j + 1 ≤ i) := by omega
        simp [cellWrite, h1, h2]

end QuickBooksETLService

namespace QuickBooksETLService

/-- The write (if any) that one *top-level* row's summary block performs on
period `i` of canonical field `k`: the row must have a `Summary`, a truthy
group, and a *case-sensitive* hit in the key table; the written value is
the parse of the `i`-th per-period cell (after the skipped label cell),
skipped when it does not parse. -/
def summaryWrite (r : QBRow0) (i : ℕ) (k : String) : Option ℚ :=
  match r.Summary with
  | some cells =>
    if r.group ≠ "" then
      match alookup QUICKBOOKS_UNIFIED_KEYS r.group with
      | some uk =>
        if k = uk then
          ((cells.drop 1).get? i).bind (fun c => parseFloat (jsOr c.value "0"))
        else none
      | none => none
    else none
  | none => none

/-- The last effective summary write over a row list (later rows overwrite
earlier ones). -/
def lastSummaryWrite : List QBRow0 → ℕ → String → Option ℚ
  | [], _, _ => none
  | r :: rs, i, k => writeOr (lastSummaryWrite rs i k) (summaryWrite r i k)

theorem valAtIdx_processSummaryRow (res : List PeriodData) (r : QBRow0)
    (i : ℕ) (k : String) (hi : i < res.length) :
    valAtIdx (processSummaryRow res r) i k =
      writeOr (summaryWrite r i k) (valAtIdx res i k) := by
  unfold processSummaryRow summaryWrite
  cases hs : r.Summary with
  | none => simp [writeOr]
  | some cells =>
    by_cases hg : r.group ≠ ""
    · cases hk : alookup QUICKBOOKS_UNIFIED_KEYS r.group with
      | none => simp [hg, hk, writeOr]
      | some uk =>
        simp only [if_pos hg, hk]
        rw [valAtIdx_applySummaryVals uk (cells.drop 1) 0 res i k hi]
        congr 1
        by_cases hku : k = uk
        · simp [cellWrite, hku, List.get?_eq_getElem?]
        · simp [cellWrite, hku]
    · simp [hg, writeOr]

theorem valAtIdx_processSummaryData :
    ∀ (rows : List QBRow0) (res : List PeriodData) (i : ℕ) (k : String),
      i < res.length →
      valAtIdx (processSummaryData rows res) i k =
        writeOr (lastSummaryWrite rows i k) (valAtIdx res i k) := by
  intro rows
  induction rows with
  | nil =>
    intro res i k hi
    simp [processSummaryData, lastSummaryWrite, writeOr]
  | cons r rs ih =>
    intro res i k hi
    have hstep : processSummaryData (r :: rs) res =
        processSummaryData rs (processSummaryRow res r) := rfl
    rw [hstep, ih (processSummaryRow res r) i k
      (by rw [length_processSummaryRow]; exact hi)]
    rw [valAtIdx_processSummaryRow res r i k hi]
    rw [writeOr_assoc]
    rfl

end QuickBooksETLService

namespace QuickBooksETLService

theorem map_mapWithIdx {α γ : Type} (f : ℕ → α → α) (g : α → γ)
    (h : ∀ i a, g (f i a) = g a) :
    ∀ (s : ℕ) (l : List α), (mapWithIdx f s l).map g = l.map g := by
  intro s l
  induction l generalizing s with
  | nil => rfl
  | cons a as ih => simp [mapWithIdx, h, ih]

theorem map_applySummaryVals {γ : Type} (g : PeriodData → γ)
    (hg : ∀ p k q, g (setVal p k q) = g p) (uk : String) :
    ∀ (cells : List QBColCell) (j : ℕ) (res : List PeriodData),
      (applySummaryVals uk cells j res).map g = res.map g := by
  intro cells
  induction cells with
  | nil => intro j res; rfl
  | cons c rest ih =>
    intro j res
    simp only [applySummaryVals]
    cases parseFloat (jsOr c.value "0") with
    | none => exact ih (j + 1) res
    | some q =>
      by_cases hj : j < res.length
      · simp only [hj, if_pos]
        rw [ih, map_modifyAt g _ (fun p => hg p uk q)]
      · simp only [hj, if_neg, ite_false]
        exact ih (j + 1) res

theorem map_processSummaryRow {γ : Type} (g : PeriodData → γ)
    (hg : ∀ p k q, g (setVal p k q) = g p) (res : List PeriodData) (r : QBRow0) :
    (processSummaryRow res r).map g = res.map g := by
  unfold processSummaryRow
  cases hs : r.Summary with
  | none => rfl
  | some cells =>
    by_cases hgrp : r.group ≠ ""
    · cases hk : alookup QUICKBOOKS_UNIFIED_KEYS r.group with
      | none => simp [hgrp, hk]
      | some uk => simp [hgrp, hk, map_applySummaryVals g hg]
    · simp [hgrp]

theorem map_processSummaryData {γ : Type} (g : PeriodData → γ)
    (hg : ∀ p k q, g (setVal p k q) = g p) (rows : List QBRow0) :
    ∀ (res : List PeriodData), (processSummaryData rows res).map g = res.map g := by
  induction rows with
  | nil => intro res; rfl
  | cons r rs ih =>
    intro res
    have h2 := ih (processSummaryRow res r)
    simpa [processSummaryData, List.foldl_cons]
      using h2.trans (map_processSummaryRow g hg res r)

theorem map_processLineItem {γ : Type} (g : PeriodData → γ)
    (hg : ∀ p k li, g (pushItem p k li) = g p) (res : List PeriodData)
    (item : LineItemData) :
    (processLineItem res item).map g = res.map g := by
  unfold processLineItem
  by_cases ht : item.ltype = LineType.normal
  · simp only [ht, if_pos]
    cases hk : resolveKey QUICKBOOKS_UNIFIED_KEYS item.group with
    | none => rfl
    | some uk =>
      apply map_mapWithIdx
      intro i p
      cases parseFloat (jsOr ((item.valuesArray.get? i).getD "") "0") with
      | none => rfl
      | some q => exact hg p uk _
  · simp [ht]

theorem map_processLineItems {γ : Type} (g : PeriodData → γ)
    (hg : ∀ p k li, g (pushItem p k li) = g p) (items : List LineItemData) :
    ∀ (res : List PeriodData), (processLineItems items res).map g = res.map g := by
  induction items with
  | nil => intro res; rfl
  | cons it its ih =>
    intro res
    have h2 := ih (processLineItem res it)
    simpa [processLineItems, List.foldl_cons]
      using h2.trans (map_processLineItem g hg res it)

theorem transformData_map_dates (d : QuickBooksData) :
    (transformData d).map (fun p => (p.startDate, p.endDate)) =
      (getReportDates d).map (fun rd => (rd.startDate, rd.endDate)) := by
  unfold transformData
  rw [map_processLineItems (fun p => (p.startDate, p.endDate)) (fun p k li => rfl),
      map_processSummaryData (fun p => (p.startDate, p.endDate)) (fun p k q => rfl)]
  simp [List.map_map, Function.comp]

theorem length_transformData (d : QuickBooksData) :
    (transformData d).length = (getReportDates d).length := by
  unfold transformData
  rw [length_processLineItems, length_processSummaryData, List.length_map]

end QuickBooksETLService

/-! ## Period-column extraction (claim-side predicate and refinement) -/

/-- The specification's period-column criterion, stated directly from its
words: the column type marks a monetary column and the metadata carries both
a start-date and an end-date annotation. -/
def claimIsPeriodColumn (col : QBColumn) : Bool :=
  col.ColType == "Money" &&
  (col.MetaData.getD []).any (fun m => m.Name == "StartDate") &&
  (col.MetaData.getD []).any (fun m => m.Name == "EndDate")

theorem isSome_periodOfColumn (col : QBColumn) :
    (QuickBooksETLService.periodOfColumn col).isSome = claimIsPeriodColumn col := by
  unfold QuickBooksETLService.periodOfColumn claimIsPeriodColumn
  by_cases hc : col.ColType = "Money"
  · cases hm : col.MetaData with
    | none => simp [hc, hm]
    | some meta =>
      simp only [hc, if_pos, hm, Option.getD_some]
      cases hs : meta.find? (fun m => m.Name == "StartDate") with
      | none =>
        have hns : meta.any (fun m => m.Name == "StartDate") = false := by
          rw [← Bool.not_eq_true, List.any_eq_true]
          intro ⟨x, hx, hpx⟩
          exact absurd hpx (List.find?_eq_none.mp hs x hx)
        cases he : meta.find? (fun m => m.Name == "EndDate") <;> simp [hns, hc]
      | some sm =>
        have hys : meta.any (fun m => m.Name == "StartDate") = true := by
          rw [List.any_eq_true]
          exact List.find?_isSome.mp (by rw [hs]; rfl)
        cases he : meta.find? (fun m => m.Name == "EndDate") with
        | none =>
          have hne : meta.any (fun m => m.Name == "EndDate") = false := by
            rw [← Bool.not_eq_true, List.any_eq_true]
            intro ⟨x, hx, hpx⟩
            exact absurd hpx (List.find?_eq_none.mp he x hx)
          simp [hys, hne, hc]
        | some em =>
          have hye : meta.any (fun m => m.Name == "EndDate") = true := by
            rw [List.any_eq_true]
            exact List.find?_isSome.mp (by rw [he]; rfl)
          simp [hys, hye, hc]
  · simp [hc]

theorem length_filterMap_eq_countP {α β : Type} (f : α → Option β) (l : List α) :
    (l.filterMap f).length = l.countP (fun a => (f a).isSome) := by
  induction l with
  | nil => rfl
  | cons a as ih =>
    rw [List.filterMap_cons, List.countP_cons]
    cases hf : f a with
    | none => simp [hf, ih]
    | some b => simp [hf, ih]

theorem valAtIdx_of_vals_nil (res : List PeriodData) (i : ℕ) (k : String)
    (h : ∀ p ∈ res, p.vals = []) : valAtIdx res i k = none := by
  unfold valAtIdx
  cases hgp : res.get? i with
  | none => rfl
  | some p =>
    have hp : p ∈ res := List.get?_mem hgp
    simp [getVal, h p hp, alookup]

/-- Claim C6: a column yields one extracted period (and hence one output
record) exactly when its type is `"Money"` and its metadata carries both a
`StartDate` and an `EndDate` entry; an excluded column contributes no
record at all, so the record list is exactly the qualifying columns' date
pairs in order. -/
theorem claim_C6 (d : QuickBooksData) :
    (QuickBooksETLService.transformData d).length =
      d.columns.countP claimIsPeriodColumn ∧
    (QuickBooksETLService.transformData d).map (fun p => (p.startDate, p.endDate)) =
      (QuickBooksETLService.getReportDates d).map (fun rd => (rd.startDate, rd.endDate)) := by
  constructor
  · rw [QuickBooksETLService.length_transformData]
    unfold QuickBooksETLService.getReportDates
    rw [length_filterMap_eq_countP]
    apply List.countP_congr
    intro col _
    rw [isSome_periodOfColumn col]
  · exact QuickBooksETLService.transformData_map_dates d

/-- Claim C2 (amended): only the *top-level* rows are consulted for
summaries, the group is matched against the key table *case-sensitively
only*, and each period's canonical field ends up holding the value of the
last such row's parsed per-period summary cell — a replacement, never an
addition; rows whose value does not parse leave the previous value in
place. -/
theorem claim_C2 (d : QuickBooksData) (i : ℕ) (k : String)
    (hi : i < (QuickBooksETLService.transformData d).length) :
    valAtIdx (QuickBooksETLService.transformData d) i k =
      QuickBooksETLService.lastSummaryWrite d.rows i k := by
  have hT : QuickBooksETLService.transformData d =
      QuickBooksETLService.processLineItems (QuickBooksETLService.getLineItems d)
        (QuickBooksETLService.processSummaryData d.rows
          ((QuickBooksETLService.getReportDates d).map (fun date =>
            { company_id := QuickBooksETLService.defaultCompanyId
              startDate := date.startDate
              endDate := date.endDate }))) := rfl
  have hlen : i < ((QuickBooksETLService.getReportDates d).map (fun date =>
      ({ company_id := QuickBooksETLService.defaultCompanyId
         startDate := date.startDate
         endDate := date.endDate } : PeriodData))).length := by
    rw [List.length_map]
    rw [QuickBooksETLService.length_transformData] at hi
    exact hi
  rw [hT, QuickBooksETLService.valAtIdx_processLineItems,
      QuickBooksETLService.valAtIdx_processSummaryData d.rows _ i k hlen,
      valAtIdx_of_vals_nil _ i k ?hnil, writeOr_none_right]
  case hnil =>
    intro p hp
    rcases List.mem_map.mp hp with ⟨date, _, hdate⟩
    rw [← hdate]

/-- A monetary column with both date annotations. -/
def moneyCol (s e : String) : QBColumn :=
  { ColType := "Money"
    MetaData := some [{ Name := "StartDate", Value := s },
                      { Name := "EndDate", Value := e }] }

/-- Counterexample document for claim C2: a top-level summary row whose
group differs from the table key only in case, and a *nested* summary row
whose group matches the table key exactly. -/
def qbDocC2 : QuickBooksData :=
  { columns := [moneyCol "2023-01-01" "2023-01-31"]
    rows :=
      [{ group := "income"
         Summary := some [{ value := "Total income" }, { value := "500" }] },
       { group := ""
         children := [{ group := "Income"
                        Summary := some [{ value := "lbl" }, { value := "600" }] }] }] }

/-- Claim C2 counterexample: contrary to the claim, neither the
case-insensitive fallback nor rows below the top level are honored by
`processSummaryData` — the canonical `income` field stays unassigned even
though `qbDocC2` contains a summary row with group `"income"` (case
mismatch) and a depth-1 summary row with group `"Income"` (exact match). -/
theorem claim_C2_counterexample :
    (QuickBooksETLService.transformData qbDocC2).map (fun p => getVal p "income") =
      [none] := by decide

/-- Concrete document exercising the amended claim C2. -/
def qbDocC2w : QuickBooksData :=
  { columns := [moneyCol "2023-01-01" "2023-01-31"]
    rows :=
      [{ group := "NetIncome"
         Summary := some [{ value := "Net Income" }, { value := "500" }] }] }

/-- Witness for the amended claim C2 at a concrete document. -/
theorem claim_C2_witness :
    valAtIdx (QuickBooksETLService.transformData qbDocC2w) 0 "net_income" =
      QuickBooksETLService.lastSummaryWrite qbDocC2w.rows 0 "net_income" ∧
    QuickBooksETLService.lastSummaryWrite qbDocC2w.rows 0 "net_income" = some 500 :=
  ⟨claim_C2 qbDocC2w 0 "net_income" (by decide), by
    simp [QuickBooksETLService.lastSummaryWrite, QuickBooksETLService.summaryWrite, qbDocC2w,
      parseFloat, parseFloatCore, takeDigits, digit?, digitsToNat, parseExp, applyExp, pow10,
      jsOr, writeOr, alookup, QUICKBOOKS_UNIFIED_KEYS, isJsWhitespace]⟩

namespace QuickBooksETLService

theorem group_rowEmit {cd : List QBColCell} {g : String} {li : LineItemData}
    (h : li ∈ rowEmit cd g) : li.group = g := by
  unfold rowEmit at h
  by_cases hlen : cd.length > 0
  · simp only [hlen, if_pos] at h
    by_cases hty : (createLineItemFromColData cd g).ltype = LineType.normal
    · simp only [hty, if_pos, List.mem_singleton] at h
      rw [h]
      rfl
    · simp [hty] at h
  · simp [hlen] at h

theorem group_traverse2 {g : String} {r : QBRow2} {li : LineItemData}
    (h : li ∈ traverse2 g r) : li.group = g :=
  group_rowEmit h

theorem group_traverse1 {g : String} {r : QBRow1} {li : LineItemData}
    (h : li ∈ traverse1 g r) : li.group = g := by
  unfold traverse1 at h
  rcases List.mem_append.mp h with h | h
  · exact group_rowEmit h
  · rcases List.mem_flatMap.mp h with ⟨r2, _, h2⟩
    exact group_traverse2 h2

theorem group_traverse0 {g : String} {r : QBRow0} {li : LineItemData}
    (h : li ∈ traverse0 g r) : li.group = g := by
  unfold traverse0 at h
  rcases List.mem_append.mp h with h | h
  · exact group_rowEmit h
  · rcases List.mem_flatMap.mp h with ⟨r1, _, h1⟩
    exact group_traverse1 h1

end QuickBooksETLService

/-- Claim C3 (amended): every emitted line item carries the group of the
*top-level* row it sits under — that row's own `group` when truthy, the
default label `"Ungrouped"` otherwise.  The names of `Group` rows nested
deeper in the tree are never consulted: the traversal hands the top-level
group down unchanged. -/
theorem claim_C3 (d : QuickBooksData) (li : LineItemData)
    (h : li ∈ QuickBooksETLService.getLineItems d) :
    ∃ r ∈ d.rows,
      li.group = (if r.group = "" then QuickBooksETLService.defaultGroup else r.group) := by
  unfold QuickBooksETLService.getLineItems at h
  rcases List.mem_flatMap.mp h with ⟨r, hr, hmem⟩
  refine ⟨r, hr, ?_⟩
  by_cases hg : r.group = ""
  · have hcond : (if r.group ≠ "" then r.children.flatMap
        (QuickBooksETLService.traverse1 r.group) else
        QuickBooksETLService.traverse0 QuickBooksETLService.defaultGroup r) =
        QuickBooksETLService.traverse0 QuickBooksETLService.defaultGroup r := by
      simp [hg]
    rw [hcond] at hmem
    rw [if_pos hg]
    exact QuickBooksETLService.group_traverse0 hmem
  · have hcond : (if r.group ≠ "" then r.children.flatMap
        (QuickBooksETLService.traverse1 r.group) else
        QuickBooksETLService.traverse0 QuickBooksETLService.defaultGroup r) =
        r.children.flatMap (QuickBooksETLService.traverse1 r.group) := by
      simp [hg]
    rw [hcond] at hmem
    rw [if_neg hg]
    rcases List.mem_flatMap.mp hmem with ⟨r1, _, h1⟩
    exact QuickBooksETLService.group_traverse1 h1

/-- Counterexample document for claim C3: a top-level `Group` row named
`"Expenses"` containing a nested `Group` row named `"Income"` whose child
is a plain line row. -/
def qbDocC3 : QuickBooksData :=
  { columns := [moneyCol "2023-01-01" "2023-01-31"]
    rows :=
      [{ group := "Expenses"
         children := [{ group := "Income"
                        children := [{ ColData := [{ value := "Rent" },
                                                   { value := "5" }] }] }] }] }

/-- Claim C3 counterexample: the `"Rent"` row's nearest ancestor `Group`
row is the inner `"Income"` row, yet `getLineItems` tags it with the
*outer* top-level group `"Expenses"` — the nearest-ancestor rule of the
claim does not hold. -/
theorem claim_C3_counterexample :
    (QuickBooksETLService.getLineItems qbDocC3).map
        (fun li => (li.lineItem, li.group)) = [("Rent", "Expenses")] := by decide

/-- Witness for the amended claim C3 at a concrete document: the emitted
item's group is the top-level row's group. -/
theorem claim_C3_witness :
    ∃ r ∈ qbDocC3.rows,
      (QuickBooksETLService.createLineItemFromColData
        [{ value := "Rent" }, { value := "5" }] "Expenses").group =
      (if r.group = "" then QuickBooksETLService.defaultGroup else r.group) :=
  claim_C3 qbDocC3
    (QuickBooksETLService.createLineItemFromColData
      [{ value := "Rent" }, { value := "5" }] "Expenses")
    (by decide)

/-! ## Rootfi fold characterization -/

namespace RootfiETLService

/-- The canonical value the loop body assigns for a source field value:
array → sum of the elements' `value`s, valid number → itself, anything
else → `0`. -/
def assignedVal : RValue → ℚ
  | RValue.arr cats => (cats.map (fun c => c.value.getD 0)).sum
  | RValue.num x => x
  | RValue.nullv => 0

theorem getVal_processEntry_self (p : RootfiPeriod) (pd : PeriodData)
    (e : String × String) :
    getVal (processEntry p pd e) e.2 = some (assignedVal (getField p e.1)) := by
  unfold processEntry assignedVal
  cases getField p e.1 with
  | arr cats => simp [getVal_setItems, getVal_setVal]
  | num x => simp [getVal_setVal]
  | nullv => simp [getVal_setVal]

theorem getVal_processEntry_ne (p : RootfiPeriod) (pd : PeriodData)
    (e : String × String) {k : String} (h : e.2 ≠ k) :
    getVal (processEntry p pd e) k = getVal pd k := by
  unfold processEntry
  cases getField p e.1 with
  | arr cats => simp [getVal_setItems, getVal_setVal, Ne.symm h]
  | num x => simp [getVal_setVal, Ne.symm h]
  | nullv => simp [getVal_setVal, Ne.symm h]

theorem getVal_fold_notMem (p : RootfiPeriod) :
    ∀ (entries : List (String × String)) (pd : PeriodData) (k : String),
      k ∉ entries.map Prod.snd →
      getVal (entries.foldl (processEntry p) pd) k = getVal pd k := by
  intro entries
  induction entries with
  | nil => intro pd k _; rfl
  | cons e es ih =>
    intro pd k h
    simp only [List.map_cons, List.mem_cons] at h
    push_neg at h
    rw [List.foldl_cons, ih _ _ h.2,
        getVal_processEntry_ne p pd e (fun hh => h.1 hh.symm)]

theorem getVal_foldEntries (p : RootfiPeriod) :
    ∀ (entries : List (String × String)) (pd : PeriodData) (ok uk : String),
      (ok, uk) ∈ entries → (entries.map Prod.snd).Nodup →
      getVal (entries.foldl (processEntry p) pd) uk =
        some (assignedVal (getField p ok)) := by
  intro entries
  induction entries with
  | nil => intro pd ok uk h _; simp at h
  | cons e es ih =>
    intro pd ok uk hmem hnd
    simp only [List.map_cons, List.nodup_cons] at hnd
    rcases List.mem_cons.mp hmem with heq | hmem2
    · obtain ⟨e1, e2⟩ := e
      obtain ⟨h1, h2⟩ := Prod.mk.injEq .. ▸ heq
      subst h1
      subst h2
      rw [List.foldl_cons, getVal_fold_notMem p es _ uk hnd.1,
          getVal_processEntry_self]
    · rw [List.foldl_cons]
      exact ih (processEntry p pd e) ok uk hmem2 hnd.2

theorem getItems_processEntry_arr (p : RootfiPeriod) (pd : PeriodData)
    (e : String × String) (cats : List RootfiCategory)
    (h : getField p e.1 = RValue.arr cats) :
    getItems (processEntry p pd e) e.2 =
      some ((((cats.head?).bind RootfiCategory.line_items).getD []).map mkRootfiItem) := by
  unfold processEntry
  rw [h]
  simp [getItems_setItems, getItems_setVal]

theorem getItems_processEntry_ne (p : RootfiPeriod) (pd : PeriodData)
    (e : String × String) {k : String} (h : e.2 ≠ k) :
    getItems (processEntry p pd e) k = getItems pd k := by
  unfold processEntry
  cases getField p e.1 with
  | arr cats => simp [getItems_setItems, getItems_setVal, Ne.symm h]
  | num x => simp [getItems_setVal]
  | nullv => simp [getItems_setVal]

theorem getItems_fold_notMem (p : RootfiPeriod) :
    ∀ (entries : List (String × String)) (pd : PeriodData) (k : String),
      k ∉ entries.map Prod.snd →
      getItems (entries.foldl (processEntry p) pd) k = getItems pd k := by
  intro entries
  induction entries with
  | nil => intro pd k _; rfl
  | cons e es ih =>
    intro pd k h
    simp only [List.map_cons, List.mem_cons] at h
    push_neg at h
    rw [List.foldl_cons, ih _ _ h.2,
        getItems_processEntry_ne p pd e (fun hh => h.1 hh.symm)]

theorem getItems_foldEntries_arr (p : RootfiPeriod) :
    ∀ (entries : List (String × String)) (pd : PeriodData) (ok uk : String)
      (cats : List RootfiCategory),
      (ok, uk) ∈ entries → (entries.map Prod.snd).Nodup →
      getField p ok = RValue.arr cats →
      getItems (entries.foldl (processEntry p) pd) uk =
        some ((((cats.head?).bind RootfiCategory.line_items).getD []).map mkRootfiItem) := by
  intro entries
  induction entries with
  | nil => intro pd ok uk cats h _ _; simp at h
  | cons e es ih =>
    intro pd ok uk cats hmem hnd hf
    simp only [List.map_cons, List.nodup_cons] at hnd
    rcases List.mem_cons.mp hmem with heq | hmem2
    · obtain ⟨e1, e2⟩ := e
      obtain ⟨h1, h2⟩ := Prod.mk.injEq .. ▸ heq
      subst h1
      subst h2
      rw [List.foldl_cons, getItems_fold_notMem p es _ uk hnd.1,
          getItems_processEntry_arr p pd _ cats hf]
    · rw [List.foldl_cons]
      exact ih (processEntry p pd e) ok uk cats hmem2 hnd.2 hf

theorem getVal_transformPeriod (p : RootfiPeriod) (ok uk : String)
    (h : (ok, uk) ∈ ROOTFI_UNIFIED_KEYS) :
    getVal (transformPeriod p) uk = some (assignedVal (getField p ok)) :=
  getVal_foldEntries p ROOTFI_UNIFIED_KEYS _ ok uk h (by decide)

theorem getItems_transformPeriod_arr (p : RootfiPeriod) (ok uk : String)
    (cats : List RootfiCategory) (h : (ok, uk) ∈ ROOTFI_UNIFIED_KEYS)
    (hf : getField p ok = RValue.arr cats) :
    getItems (transformPeriod p) uk =
      some ((((cats.head?).bind RootfiCategory.line_items).getD []).map mkRootfiItem) :=
  getItems_foldEntries_arr p ROOTFI_UNIFIED_KEYS _ ok uk cats h (by decide) hf

end RootfiETLService

/-- Claim C1 (amended): every record produced by the *Rootfi* normalizer
has all nine canonical fields present and numeric; the *QuickBooks*
normalizer leaves a canonical field absent (`undefined`) unless a matching
summary row assigns it, and the default-to-`0` coercion for an absent field
happens only at persistence time (`buildCategoriesForPeriod`). -/
theorem claim_C1 :
    (∀ (d : RootfiData) (pd : PeriodData), pd ∈ RootfiETLService.transformData d →
      ∀ k ∈ FINANCIAL_CATEGORY_KEYS, (getVal pd k).isSome = true) ∧
    (∀ (p : PeriodData) (c : DatabaseService.SavedCategory),
      c ∈ DatabaseService.buildCategoriesForPeriod p →
      c.value = (getVal p c.name).getD 0) := by
  constructor
  · intro d pd hpd k hk
    rcases List.mem_map.mp hpd with ⟨p, _, hp⟩
    subst hp
    simp only [FINANCIAL_CATEGORY_KEYS, List.mem_cons, List.not_mem_nil, or_false] at hk
    rcases hk with rfl | rfl | rfl | rfl | rfl | rfl | rfl | rfl | rfl
    · rw [RootfiETLService.getVal_transformPeriod p "revenue" _ (by decide)]; rfl
    · rw [RootfiETLService.getVal_transformPeriod p "cost_of_goods_sold" _ (by decide)]; rfl
    · rw [RootfiETLService.getVal_transformPeriod p "gross_profit" _ (by decide)]; rfl
    · rw [RootfiETLService.getVal_transformPeriod p "operating_expenses" _ (by decide)]; rfl
    · rw [RootfiETLService.getVal_transformPeriod p "operating_profit" _ (by decide)]; rfl
    · rw [RootfiETLService.getVal_transformPeriod p "non_operating_revenue" _ (by decide)]; rfl
    · rw [RootfiETLService.getVal_transformPeriod p "non_operating_expenses" _ (by decide)]; rfl
    · rw [RootfiETLService.getVal_transformPeriod p "earnings_before_taxes" _ (by decide)]; rfl
    · rw [RootfiETLService.getVal_transformPeriod p "net_profit" _ (by decide)]; rfl
  · intro p c hc
    unfold DatabaseService.buildCategoriesForPeriod at hc
    rcases List.mem_map.mp hc with ⟨k, _, hck⟩
    subst hck
    rfl

/-- A QuickBooks document with one valid period column and no rows at
all. -/
def qbDocC1 : QuickBooksData :=
  { columns := [moneyCol "2023-01-01" "2023-01-31"]
    rows := [] }

/-- Claim C1 counterexample: `QuickBooksETLService.transformData` emits a
record whose canonical `income` field is *absent* (JS `undefined`), not
`0` — the claim's all-nine-fields-present invariant fails on the
QuickBooks side of the normalizer. -/
theorem claim_C1_counterexample :
    (QuickBooksETLService.transformData qbDocC1).map (fun pd => getVal pd "income") =
      [none] := by decide

/-- A Rootfi period with every optional field missing. -/
def rfPeriodC1 : RootfiPeriod :=
  { period_start := "2023-01-01", period_end := "2023-01-31" }

/-- A Rootfi document with that single period. -/
def rfDocC1 : RootfiData := { data := [rfPeriodC1] }

/-- A record with no canonical field assigned. -/
def pdEmpty : PeriodData :=
  { company_id := 1, startDate := "2023-01-01", endDate := "2023-01-31" }

/-- The category `buildCategoriesForPeriod` creates for `income` when the
field is absent. -/
def savedC1 : DatabaseService.SavedCategory :=
  { name := "income", value := 0, categoryType := "income", lineItems := [] }

/-- Witness for the amended claim C1 at a concrete document and a concrete
persisted category. -/
theorem claim_C1_witness :
    (getVal (RootfiETLService.transformPeriod rfPeriodC1) "income").isSome = true ∧
    savedC1.value = (getVal pdEmpty savedC1.name).getD 0 :=
  ⟨claim_C1.1 rfDocC1 (RootfiETLService.transformPeriod rfPeriodC1)
      (List.mem_map_of_mem _ (by decide)) "income" (by decide),
   claim_C1.2 pdEmpty savedC1 (by decide)⟩

/-- Claim C5: for an array-valued source field listed in the Rootfi key
table, the canonical value is the sum of all array elements' `value`s and
the canonical line items are exactly those of the *first* array element
(empty when the array is empty); later elements' line items are
discarded. -/
theorem claim_C5 (d : RootfiData) (p : RootfiPeriod) (hp : p ∈ d.data)
    (ok uk : String) (hk : (ok, uk) ∈ ROOTFI_UNIFIED_KEYS)
    (cats : List RootfiCategory) (hf : getField p ok = RValue.arr cats) :
    RootfiETLService.transformPeriod p ∈ RootfiETLService.transformData d ∧
    getVal (RootfiETLService.transformPeriod p) uk =
      some ((cats.map (fun c => c.value.getD 0)).sum) ∧
    getItems (RootfiETLService.transformPeriod p) uk =
      some ((((cats.head?).bind RootfiCategory.line_items).getD []).map
        RootfiETLService.mkRootfiItem) := by
  refine ⟨List.mem_map_of_mem _ hp, ?_, ?_⟩
  · rw [RootfiETLService.getVal_transformPeriod p ok uk hk, hf]
    rfl
  · exact RootfiETLService.getItems_transformPeriod_arr p ok uk cats hk hf

/-- The revenue categories of the C5/C10 witness period: the value sums
over both elements, the line items come from the first element only. -/
def rfRevCats : List RootfiCategory :=
  [{ name := "Sales", value := some 1000,
     line_items := some [{ name := "Product A", value := 600 },
                         { name := "Product B", value := 400 }] },
   { name := "Other", value := some 50,
     line_items := some [{ name := "Discarded", value := 50 }] }]

/-- A Rootfi period whose `revenue` field is that two-element array. -/
def rfPeriodC5 : RootfiPeriod :=
  { period_start := "2023-01-01", period_end := "2023-01-31"
    rootfi_company_id := RValue.num 7
    revenue := RValue.arr rfRevCats }

/-- A Rootfi document with that single period. -/
def rfDocC5 : RootfiData := { data := [rfPeriodC5] }

/-- Witness for claim C5 at a concrete document. -/
theorem claim_C5_witness :
    RootfiETLService.transformPeriod rfPeriodC5 ∈ RootfiETLService.transformData rfDocC5 ∧
    getVal (RootfiETLService.transformPeriod rfPeriodC5) "income" =
      some ((rfRevCats.map (fun c => c.value.getD 0)).sum) ∧
    getItems (RootfiETLService.transformPeriod rfPeriodC5) "income" =
      some ((((rfRevCats.head?).bind RootfiCategory.line_items).getD []).map
        RootfiETLService.mkRootfiItem) :=
  claim_C5 rfDocC5 rfPeriodC5 (by decide) "revenue" "income" (by decide) rfRevCats rfl

namespace RootfiETLService

/-- Every line-item array stored by the Rootfi loop is the image of source
line items under `mkRootfiItem`. -/
def itemsShaped (pd : PeriodData) : Prop :=
  ∀ kv ∈ pd.lineItems, ∃ ls : List RootfiLineItem, kv.2 = ls.map mkRootfiItem

theorem itemsShaped_processEntry (p : RootfiPeriod) (e : String × String)
    {pd : PeriodData} (h : itemsShaped pd) : itemsShaped (processEntry p pd e) := by
  unfold processEntry
  cases hf : getField p e.1 with
  | arr cats =>
    intro kv hkv
    have hkv2 : kv ∈ upsert pd.lineItems e.2
        ((((cats.head?).bind RootfiCategory.line_items).getD []).map mkRootfiItem) := hkv
    rcases mem_upsert hkv2 with heq | hmem
    · exact ⟨((cats.head?).bind RootfiCategory.line_items).getD [], by rw [heq]⟩
    · exact h kv hmem
  | num x => exact fun kv hkv => h kv hkv
  | nullv => exact fun kv hkv => h kv hkv

theorem itemsShaped_fold (p : RootfiPeriod) :
    ∀ (entries : List (String × String)) (pd : PeriodData),
      itemsShaped pd → itemsShaped (entries.foldl (processEntry p) pd) := by
  intro entries
  induction entries with
  | nil => exact fun pd h => h
  | cons e es ih =>
    intro pd h
    rw [List.foldl_cons]
    exact ih _ (itemsShaped_processEntry p e h)

theorem itemsShaped_transformPeriod (p : RootfiPeriod) :
    itemsShaped (transformPeriod p) := by
  unfold transformPeriod
  apply itemsShaped_fold
  intro kv hkv
  simp at hkv

end RootfiETLService

/-- Claim C10: every line item emitted by the Rootfi normalizer has
`key = cleanLineItemTitles originalName` — lowercase, `&`→`and`,
parentheses removed, whitespace runs replaced by `_`, all other characters
outside `[a-z0-9_]` deleted — with the untouched source name preserved in
`originalName`; consequently the key uses only `[a-z0-9_]`. -/
theorem claim_C10 (d : RootfiData) (t : PeriodData)
    (ht : t ∈ RootfiETLService.transformData d) (k : String)
    (items : List LineItem) (hit : getItems t k = some items)
    (li : LineItem) (hli : li ∈ items) :
    ∃ n, li.originalName = some n ∧ li.key = cleanLineItemTitles n ∧
      li.key.data.all allowedChar = true := by
  rcases List.mem_map.mp ht with ⟨p, _, hp⟩
  subst hp
  have hsh := RootfiETLService.itemsShaped_transformPeriod p
  have hkv : (k, items) ∈ (RootfiETLService.transformPeriod p).lineItems :=
    alookup_mem hit
  rcases hsh (k, items) hkv with ⟨ls, hls⟩
  have hls2 : items = ls.map RootfiETLService.mkRootfiItem := hls
  rw [hls2] at hli
  rcases List.mem_map.mp hli with ⟨x, _, hx⟩
  refine ⟨x.name, ?_, ?_, ?_⟩
  · rw [← hx]; rfl
  · rw [← hx]; rfl
  · rw [← hx]
    exact cleanLineItemTitles_allowed x.name

/-- The unified line items the witness period produces for `income`. -/
def rfItemsC10 : List LineItem :=
  [{ key := "product_a", value := 600, originalName := some "Product A" },
   { key := "product_b", value := 400, originalName := some "Product B" }]

/-- The first of those line items. -/
def liC10 : LineItem :=
  { key := "product_a", value := 600, originalName := some "Product A" }

/-- Witness for claim C10 at a concrete document. -/
theorem claim_C10_witness :
    ∃ n, liC10.originalName = some n ∧ liC10.key = cleanLineItemTitles n ∧
      liC10.key.data.all allowedChar = true :=
  claim_C10 rfDocC5 (RootfiETLService.transformPeriod rfPeriodC5)
    (List.mem_map_of_mem _ (by decide)) "income" rfItemsC10 (by decide)
    liC10 (by decide)

/-- Claim C9: `saveCompanyData` creates, for every input period, exactly
nine categories — one per `FINANCIAL_CATEGORY_KEYS` entry, in that order,
with value `(period[key] as number) || 0` — and nothing else; in
particular no `taxes` category is ever persisted. -/
theorem claim_C9 (periodData : List PeriodData) (rp : DatabaseService.SavedReportPeriod)
    (h : rp ∈ DatabaseService.saveCompanyData periodData) :
    rp.categories.map (fun c => c.name) = FINANCIAL_CATEGORY_KEYS ∧
    rp.categories.length = 9 ∧
    "taxes" ∉ rp.categories.map (fun c => c.name) ∧
    ∃ p ∈ periodData, ∀ c ∈ rp.categories, c.value = (getVal p c.name).getD 0 := by
  unfold DatabaseService.saveCompanyData at h
  rcases List.mem_map.mp h with ⟨p, hp, hrp⟩
  subst hrp
  have hnames : (DatabaseService.buildCategoriesForPeriod p).map (fun c => c.name) =
      FINANCIAL_CATEGORY_KEYS := by
    unfold DatabaseService.buildCategoriesForPeriod
    rw [List.map_map]
    exact List.map_id FINANCIAL_CATEGORY_KEYS
  refine ⟨hnames, ?_, ?_, ⟨p, hp, ?_⟩⟩
  · have hlen := congrArg List.length hnames
    simpa using hlen
  · rw [hnames]
    decide
  · intro c hc
    rcases List.mem_map.mp hc with ⟨k, _, hck⟩
    subst hck
    rfl

/-- The report period `saveCompanyData` builds from `pdEmpty`. -/
def savedRpC9 : DatabaseService.SavedReportPeriod :=
  { startDate := "2023-01-01", endDate := "2023-01-31", periodType := "monthly",
    categories := DatabaseService.buildCategoriesForPeriod pdEmpty }

/-- Witness for claim C9 at a one-period save. -/
theorem claim_C9_witness :
    savedRpC9.categories.map (fun c => c.name) = FINANCIAL_CATEGORY_KEYS ∧
    savedRpC9.categories.length = 9 ∧
    "taxes" ∉ savedRpC9.categories.map (fun c => c.name) ∧
    ∃ p ∈ [pdEmpty], ∀ c ∈ savedRpC9.categories, c.value = (getVal p c.name).getD 0 :=
  claim_C9 [pdEmpty] savedRpC9 (by decide)

theorem startsWithChars_extend :
    ∀ (pat l m : List Char), startsWithChars l pat = true →
      startsWithChars (l ++ m) pat = true := by
  intro pat
  induction pat with
  | nil =>
    intro l m _
    cases l ++ m <;> rfl
  | cons d ds ih =>
    intro l m h
    cases l with
    | nil => simp [startsWithChars] at h
    | cons c cs =>
      simp only [startsWithChars, Bool.and_eq_true] at h
      simp only [List.cons_append, startsWithChars, Bool.and_eq_true]
      exact ⟨h.1, ih cs m h.2⟩

theorem startsWithStr_extend (s pat t : String) (h : startsWithStr s pat = true) :
    startsWithStr (s ++ t) pat = true := by
  unfold startsWithStr at h ⊢
  rw [String.data_append]
  exact startsWithChars_extend pat.data s.data t.data h

/-- Claim C7: every fetch, validation, or persistence failure in the two
pipelines is converted into a `success = false` result carrying a summary
message and a one-element error list, and is never rethrown (the model
functions are total); in particular a Rootfi document rejected by
`validateData` produces exactly such a failure result. -/
theorem claim_C7 (fq : Except String QuickBooksData)
    (sq : List PeriodData → Except String DatabaseStatistics)
    (fr : Except String RootfiData)
    (sr : List PeriodData → Except String DatabaseStatistics) :
    (∀ e, fq = Except.error e →
      (UnifiedETLService.processQuickBooksData fq sq).success = false ∧
      (UnifiedETLService.processQuickBooksData fq sq).errors =
        some ["Failed to load QuickBooks data: " ++ e]) ∧
    (∀ d e, fq = Except.ok d →
      sq (QuickBooksETLService.transformData d) = Except.error e →
      (UnifiedETLService.processQuickBooksData fq sq).success = false ∧
      (UnifiedETLService.processQuickBooksData fq sq).errors = some [e]) ∧
    (∀ e, fr = Except.error e →
      (UnifiedETLService.processRootfiData fr sr).success = false ∧
      (UnifiedETLService.processRootfiData fr sr).errors =
        some ["Failed to load Rootfi data: " ++ e]) ∧
    (∀ d, fr = Except.ok d → RootfiETLService.validateData d = false →
      (UnifiedETLService.processRootfiData fr sr).success = false ∧
      (UnifiedETLService.processRootfiData fr sr).errors =
        some ["Invalid Rootfi data structure"]) ∧
    (∀ d e, fr = Except.ok d → RootfiETLService.validateData d = true →
      sr (RootfiETLService.transformData d) = Except.error e →
      (UnifiedETLService.processRootfiData fr sr).success = false ∧
      (UnifiedETLService.processRootfiData fr sr).errors = some [e]) ∧
    ((UnifiedETLService.processQuickBooksData fq sq).success = false →
      startsWithStr (UnifiedETLService.processQuickBooksData fq sq).message
        "QuickBooks data processing failed" = true) ∧
    ((UnifiedETLService.processRootfiData fr sr).success = false →
      startsWithStr (UnifiedETLService.processRootfiData fr sr).message
        "Rootfi data processing failed" = true) := by
  have hredQ : ∀ d, UnifiedETLService.processQuickBooksData (Except.ok d) sq =
      (match sq (QuickBooksETLService.transformData d) with
       | Except.error e =>
         { success := false
           message := "QuickBooks data processing failed: Error: " ++ e
           errors := some [e] }
       | Except.ok stats =>
         { success := true
           message := "QuickBooks data processed successfully"
           results := some stats }) := fun d => rfl
  have hredR : ∀ d, UnifiedETLService.processRootfiData (Except.ok d) sr =
      (if !RootfiETLService.validateData d then
        { success := false
          message := "Rootfi data processing failed: Error: Invalid Rootfi data structure"
          errors := some ["Invalid Rootfi data structure"] }
      else
        match sr (RootfiETLService.transformData d) with
        | Except.error e =>
          { success := false
            message := "Rootfi data processing failed: Error: " ++ e
            errors := some [e] }
        | Except.ok stats =>
          { success := true
            message := "Rootfi data processed successfully"
            results := some stats }) := fun d => rfl
  refine ⟨?_, ?_, ?_, ?_, ?_, ?_, ?_⟩
  · intro e he
    subst he
    exact ⟨rfl, rfl⟩
  · intro d e hd hsave
    subst hd
    rw [hredQ d, hsave]
    exact ⟨rfl, rfl⟩
  · intro e he
    subst he
    exact ⟨rfl, rfl⟩
  · intro d hd hv
    subst hd
    rw [hredR d, hv]
    exact ⟨rfl, rfl⟩
  · intro d e hd hv hsave
    subst hd
    rw [hredR d, hv, hsave]
    exact ⟨rfl, rfl⟩
  · intro hfail
    cases fq with
    | error e =>
      exact startsWithStr_extend "QuickBooks data processing failed" _ _ (by decide)
    | ok d =>
      rw [hredQ d] at hfail ⊢
      cases hs : sq (QuickBooksETLService.transformData d) with
      | error e =>
        have hm : ("QuickBooks data processing failed: Error: " : String) =
            "QuickBooks data processing failed" ++ ": Error: " := by decide
        show startsWithStr ("QuickBooks data processing failed: Error: " ++ e)
          "QuickBooks data processing failed" = true
        rw [hm]
        exact startsWithStr_extend _ _ e (by decide)
      | ok stats =>
        rw [hs] at hfail
        simp at hfail
  · intro hfail
    cases fr with
    | error e =>
      exact startsWithStr_extend "Rootfi data processing failed" _ _ (by decide)
    | ok d =>
      rw [hredR d] at hfail ⊢
      cases hv : RootfiETLService.validateData d with
      | false =>
        exact (by decide : startsWithStr
          "Rootfi data processing failed: Error: Invalid Rootfi data structure"
          "Rootfi data processing failed" = true)
      | true =>
        cases hs : sr (RootfiETLService.transformData d) with
        | error e =>
          have hm : ("Rootfi data processing failed: Error: " : String) =
              "Rootfi data processing failed" ++ ": Error: " := by decide
          show startsWithStr ("Rootfi data processing failed: Error: " ++ e)
            "Rootfi data processing failed" = true
          rw [hm]
          exact startsWithStr_extend _ _ e (by decide)
        | ok stats =>
          rw [hv, hs] at hfail
          simp at hfail

/-- A Rootfi period failing structural validation (empty `period_start`, no
numeric company id). -/
def rfPeriodInvalid : RootfiPeriod :=
  { period_start := "", period_end := "2023-01-31" }

/-- A Rootfi document that `validateData` rejects. -/
def rfDocInvalid : RootfiData := { data := [rfPeriodInvalid] }

/-- Witness for claim C7: an invalid Rootfi document yields a failure
result with the validation error message. -/
theorem claim_C7_witness :
    (UnifiedETLService.processRootfiData (Except.ok rfDocInvalid)
        (fun _ => Except.error "db down")).success = false ∧
    (UnifiedETLService.processRootfiData (Except.ok rfDocInvalid)
        (fun _ => Except.error "db down")).errors =
      some ["Invalid Rootfi data structure"] :=
  (claim_C7 (Except.error "unused") (fun _ => Except.error "db down")
      (Except.ok rfDocInvalid) (fun _ => Except.error "db down")).2.2.2.1
    rfDocInvalid rfl (by decide)

/-- Claim C8: the merge route rejects a request before invoking the merger
whenever either date fails the strict `YYYY-MM-DD` check, and the merger is
invoked exactly on the requests where both dates pass. -/
theorem claim_C8 (sd ed : Option String) (stored : List RawCategory) :
    (¬(isStrictDateFormat (sd.getD "") = true ∧
        isStrictDateFormat (ed.getD "") = true) →
      ∀ cats, handleCategoriesByDateRange sd ed stored ≠
        DateRangeResponse.merged cats) ∧
    (∀ cats, handleCategoriesByDateRange sd ed stored =
        DateRangeResponse.merged cats →
      isStrictDateFormat (sd.getD "") = true ∧
      isStrictDateFormat (ed.getD "") = true ∧
      cats = DatabaseService.getCategoriesByDateRange (sd.getD "") (ed.getD "") stored) := by
  constructor
  · intro hbad cats
    by_cases h1 : sd.getD "" = ""
    · simp [handleCategoriesByDateRange, h1]
    · by_cases h2 : ed.getD "" = ""
      · simp [handleCategoriesByDateRange, h1, h2]
      · cases hf1 : isStrictDateFormat (sd.getD "") with
        | false => simp [handleCategoriesByDateRange, h1, h2, hf1]
        | true =>
          cases hf2 : isStrictDateFormat (ed.getD "") with
          | false => simp [handleCategoriesByDateRange, h1, h2, hf1, hf2]
          | true => exact absurd ⟨hf1, hf2⟩ hbad
  · intro cats hres
    by_cases h1 : sd.getD "" = ""
    · simp [handleCategoriesByDateRange, h1] at hres
    · by_cases h2 : ed.getD "" = ""
      · simp [handleCategoriesByDateRange, h1, h2] at hres
      · cases hf1 : isStrictDateFormat (sd.getD "") with
        | false => simp [handleCategoriesByDateRange, h1, h2, hf1] at hres
        | true =>
          cases hf2 : isStrictDateFormat (ed.getD "") with
          | false => simp [handleCategoriesByDateRange, h1, h2, hf1, hf2] at hres
          | true =>
            simp [handleCategoriesByDateRange, h1, h2, hf1, hf2] at hres
            exact ⟨rfl, rfl, hres.symm⟩

/-- Witness for claim C8: the malformed date `"01-01-2023"` is rejected
before the merger runs. -/
theorem claim_C8_witness :
    isStrictDateFormat "01-01-2023" = false ∧
    handleCategoriesByDateRange (some "01-01-2023") (some "2023-01-31") [] ≠
      DateRangeResponse.merged [] :=
  ⟨by decide, (claim_C8 (some "01-01-2023") (some "2023-01-31") []).1 (by decide) []⟩

/-! ## Category-merge correctness -/

namespace DatabaseService

/-- Total of the raw categories' values. -/
def sumVals (cats : List RawCategory) : ℚ := (cats.map (fun c => c.value)).sum

/-- Total of the raw categories' line-item counts. -/
def sumItemLens (cats : List RawCategory) : ℕ :=
  (cats.map (fun c => c.lineItems.length)).sum

theorem name_updateMerged (m : MergedCategory) (c : RawCategory) :
    (updateMerged m c).name = m.name := by
  unfold updateMerged
  cases c.reportPeriod <;> rfl

theorem value_updateMerged (m : MergedCategory) (c : RawCategory) :
    (updateMerged m c).value = m.value + c.value := by
  unfold updateMerged
  cases c.reportPeriod <;> rfl

theorem lineItems_updateMerged (m : MergedCategory) (c : RawCategory) :
    (updateMerged m c).lineItems = m.lineItems ++ c.lineItems := by
  unfold updateMerged
  cases c.reportPeriod <;> rfl

theorem mem_names_inj {acc : List MergedCategory}
    (h : (acc.map (fun m => m.name)).Nodup) {a b : MergedCategory}
    (ha : a ∈ acc) (hb : b ∈ acc) (hab : a.name = b.name) : a = b := by
  induction acc with
  | nil => simp at ha
  | cons hd tl ih =>
    simp only [List.map_cons, List.nodup_cons] at h
    rcases List.mem_cons.mp ha with rfl | ha2
    · rcases List.mem_cons.mp hb with rfl | hb2
      · rfl
      · exact absurd (hab ▸ List.mem_map_of_mem (fun m => m.name) hb2) h.1
    · rcases List.mem_cons.mp hb with rfl | hb2
      · exact absurd (hab ▸ List.mem_map_of_mem (fun m => m.name) ha2) h.1
      · exact ih h.2 ha2 hb2

theorem namesOf_mergeStep (acc : List MergedCategory) (c : RawCategory) :
    (mergeStep acc c).map (fun m => m.name) =
      if acc.any (fun m => m.name == c.name) then acc.map (fun m => m.name)
      else acc.map (fun m => m.name) ++ [c.name] := by
  unfold mergeStep
  by_cases h : acc.any (fun m => m.name == c.name)
  · rw [if_pos h, if_pos h, List.map_map]
    apply List.map_congr_left
    intro m _
    by_cases hm : m.name = c.name
    · simp [hm, name_updateMerged]
    · simp [hm]
  · rw [if_neg h, if_neg h, List.map_append]
    simp [name_updateMerged, emptyMerged]

theorem nodup_names_mergeStep (acc : List MergedCategory) (c : RawCategory)
    (h : (acc.map (fun m => m.name)).Nodup) :
    ((mergeStep acc c).map (fun m => m.name)).Nodup := by
  rw [namesOf_mergeStep]
  by_cases ha : acc.any (fun m => m.name == c.name)
  · simpa [ha] using h
  · rw [if_neg ha, List.nodup_append]
    refine ⟨h, List.nodup_singleton _, ?_⟩
    intro x hx hxc
    rcases List.mem_map.mp hx with ⟨m, hmem, hname⟩
    rcases List.mem_singleton.mp hxc with rfl
    exact ha (List.any_eq_true.mpr ⟨m, hmem, beq_iff_eq.mpr hname⟩)

theorem mergeFold_spec :
    ∀ (l : List RawCategory) (acc : List MergedCategory),
      (acc.map (fun m => m.name)).Nodup →
      ∀ m ∈ l.foldl mergeStep acc,
        (∀ m0 ∈ acc, m0.name = m.name →
          m.value = m0.value + sumVals (l.filter (fun c => c.name = m.name)) ∧
          m.lineItems.length = m0.lineItems.length +
            sumItemLens (l.filter (fun c => c.name = m.name))) ∧
        (m.name ∉ acc.map (fun mm => mm.name) →
          m.value = sumVals (l.filter (fun c => c.name = m.name)) ∧
          m.lineItems.length = sumItemLens (l.filter (fun c => c.name = m.name))) := by
  intro l
  induction l with
  | nil =>
    intro acc hnd m hm
    simp only [List.foldl_nil] at hm
    constructor
    · intro m0 hm0 hname
      have heq : m0 = m := mem_names_inj hnd hm0 hm hname
      subst heq
      simp [sumVals, sumItemLens]
    · intro hnot
      exact absurd (List.mem_map_of_mem (fun mm => mm.name) hm) hnot
  | cons c rest ih =>
    intro acc hnd m hm
    rw [List.foldl_cons] at hm
    have hnd2 := nodup_names_mergeStep acc c hnd
    have IH := ih (mergeStep acc c) hnd2 m hm
    by_cases hcm : c.name = m.name
    · have hfil : (c :: rest).filter (fun x => x.name = m.name) =
          c :: rest.filter (fun x => x.name = m.name) := by
        simp [List.filter_cons, hcm]
      rw [hfil]
      constructor
      · intro m0 hm0 hname
        have hany : acc.any (fun mm => mm.name == c.name) = true :=
          List.any_eq_true.mpr ⟨m0, hm0, beq_iff_eq.mpr (hname.trans hcm.symm)⟩
        have hstep : mergeStep acc c =
            acc.map (fun mm => if mm.name = c.name then updateMerged mm c else mm) := by
          unfold mergeStep
          rw [if_pos hany]
        have hmem2 : updateMerged m0 c ∈ mergeStep acc c := by
          rw [hstep]
          have : (fun mm => if mm.name = c.name then updateMerged mm c else mm) m0 =
              updateMerged m0 c := by
            simp [hname.trans hcm.symm]
          rw [← this]
          exact List.mem_map_of_mem _ hm0
        have hname2 : (updateMerged m0 c).name = m.name := by
          rw [name_updateMerged]
          exact hname
        have h1 := (IH.1 (updateMerged m0 c) hmem2 hname2).1
        have h2 := (IH.1 (updateMerged m0 c) hmem2 hname2).2
        rw [value_updateMerged] at h1
        rw [lineItems_updateMerged] at h2
        constructor
        · rw [h1]
          simp [sumVals, List.filter_cons, hcm]
          ring
        · rw [h2]
          simp [sumItemLens, List.filter_cons, hcm]
          omega
      · intro hnot
        have hany : acc.any (fun mm => mm.name == c.name) = false := by
          rw [← Bool.not_eq_true, List.any_eq_true]
          intro ⟨mm, hmm, hbeq⟩
          have hmmname : mm.name = m.name := (beq_iff_eq.mp hbeq).trans hcm
          exact hnot (hmmname ▸ List.mem_map_of_mem (fun x => x.name) hmm)
        have hstep : mergeStep acc c =
            acc ++ [updateMerged (emptyMerged c) c] := by
          unfold mergeStep
          rw [if_neg (by simp [hany])]
        have hmem2 : updateMerged (emptyMerged c) c ∈ mergeStep acc c := by
          rw [hstep]
          exact List.mem_append_right _ (List.mem_singleton_self _)
        have hname2 : (updateMerged (emptyMerged c) c).name = m.name := by
          rw [name_updateMerged]
          exact hcm
        have h1 := (IH.1 (updateMerged (emptyMerged c) c) hmem2 hname2).1
        have h2 := (IH.1 (updateMerged (emptyMerged c) c) hmem2 hname2).2
        rw [value_updateMerged] at h1
        rw [lineItems_updateMerged] at h2
        constructor
        · rw [h1]
          simp [sumVals, List.filter_cons, hcm, emptyMerged]
        · rw [h2]
          simp [sumItemLens, List.filter_cons, hcm, emptyMerged]
    · have hfil : (c :: rest).filter (fun x => x.name = m.name) =
          rest.filter (fun x => x.name = m.name) := by
        simp [List.filter_cons, hcm]
      rw [hfil]
      constructor
      · intro m0 hm0 hname
        have hm0name : ¬m0.name = c.name := fun hh =>
          hcm (hh.symm.trans hname)
        have hmem2 : m0 ∈ mergeStep acc c := by
          unfold mergeStep
          by_cases hany : acc.any (fun mm => mm.name == c.name)
          · rw [if_pos hany]
            have : (fun mm => if mm.name = c.name then updateMerged mm c else mm) m0 =
                m0 := by
              simp [hm0name]
            rw [← this]
            exact List.mem_map_of_mem _ hm0
          · rw [if_neg hany]
            exact List.mem_append_left _ hm0
        exact IH.1 m0 hmem2 hname
      · intro hnot
        have hnot2 : m.name ∉ (mergeStep acc c).map (fun mm => mm.name) := by
          rw [namesOf_mergeStep]
          by_cases hany : acc.any (fun mm => mm.name == c.name)
          · simpa [hany] using hnot
          · rw [if_neg hany]
            intro hmem
            rcases List.mem_append.mp hmem with hmem | hmem
            · exact hnot hmem
            · exact hcm (List.mem_singleton.mp hmem).symm
        exact IH.2 hnot2

end DatabaseService

/-- Claim C4: each merged category returned by `getCategoriesByDateRange`
has a value equal to the sum of the matching raw categories' values (same
display name, exactly matching period bounds) and a line-item count equal
to the sum of their line-item counts (concatenation, no deduplication). -/
theorem claim_C4 (startDate endDate : String) (stored : List RawCategory)
    (m : MergedCategory)
    (hm : m ∈ DatabaseService.getCategoriesByDateRange startDate endDate stored) :
    m.value = DatabaseService.sumVals
      ((stored.filter (DatabaseService.matchesBounds startDate endDate)).filter
        (fun c => c.name = m.name)) ∧
    m.lineItems.length = DatabaseService.sumItemLens
      ((stored.filter (DatabaseService.matchesBounds startDate endDate)).filter
        (fun c => c.name = m.name)) := by
  unfold DatabaseService.getCategoriesByDateRange at hm
  rw [List.mem_mergeSort] at hm
  have h := DatabaseService.mergeFold_spec
    (stored.filter (DatabaseService.matchesBounds startDate endDate)) [] (by simp) m hm
  exact h.2 (by simp)

/-- First stored period reference of the merge witness. -/
def rpRef1 : ReportPeriodRef :=
  { id := 1, startDate := "2023-01-01", endDate := "2023-01-31",
    company := some { id := 1, name := "CompanyA" } }

/-- Second stored period reference of the merge witness (same company). -/
def rpRef2 : ReportPeriodRef :=
  { id := 2, startDate := "2023-01-01", endDate := "2023-01-31",
    company := some { id := 1, name := "CompanyA" } }

/-- Two stored `income` categories owned by periods with the queried
bounds. -/
def storedC4 : List RawCategory :=
  [{ name := "income", value := 100, lineItems := [{ name := "a" }],
     reportPeriod := some rpRef1 },
   { name := "income", value := 250, lineItems := [{ name := "b" }, { name := "c" }],
     reportPeriod := some rpRef2 }]

/-- The merged category the query produces from `storedC4`. -/
def mC4 : MergedCategory :=
  { id := "merged_income", name := "income", value := 350, categoryType := ""
    lineItems := [{ name := "a" }, { name := "b" }, { name := "c" }]
    reportPeriods := [rpRef1, rpRef2]
    companies := [{ id := 1, name := "CompanyA" }] }

/-- Witness for claim C4: merging the two stored `income` categories
(100 and 250, one and two line items) yields value 350 and three line
items. -/
theorem claim_C4_witness :
    mC4.value = DatabaseService.sumVals
      ((storedC4.filter (DatabaseService.matchesBounds "2023-01-01" "2023-01-31")).filter
        (fun c => c.name = mC4.name)) ∧
    mC4.lineItems.length = DatabaseService.sumItemLens
      ((storedC4.filter (DatabaseService.matchesBounds "2023-01-01" "2023-01-31")).filter
        (fun c => c.name = mC4.name)) :=
  claim_C4 "2023-01-01" "2023-01-31" storedC4 mC4 (by
    unfold DatabaseService.getCategoriesByDateRange
    rw [List.mem_mergeSort]
    norm_num [DatabaseService.mergeStep, DatabaseService.updateMerged,
      DatabaseService.emptyMerged, DatabaseService.matchesBounds, storedC4, mC4,
      rpRef1, rpRef2]
    decide)
